import Mathlib

/-!
Verification of the PES commentary binary codec
(repository: pes-commentary-editor-js).

The development shallowly embeds the TypeScript/JavaScript sources:

* `src/utils.ts` — `cleanString`, `isBinaryValid`, `decimalToBytes`,
  `sortAndCountPlayers`;
* the `PESCommentaryListParser` class (`save`, `parse`, `readString`,
  `createPlayer`, `updatePlayer`, `deletePlayer`, `buildCommentaryName`);
* `parser_config.ts` — the two layout constant tables.

Modelling conventions:

* JavaScript strings are `List Char`; `TextEncoder` / `TextDecoder`
  are embedded as a WHATWG UTF-8 encoder and decoder over `List Nat`
  byte lists (replacement mode, one U+FFFD per failed sequence).
* Byte buffers are `List Nat` with every entry < 256 at the points the
  code writes them; `Uint8Array.prototype.set` is embedded by
  `setBytes`, which truncates a write that would run past the end of
  the target where JavaScript would throw a RangeError — every theorem
  below only ever exercises in-bounds writes.
* JavaScript numbers that the code treats as integers are `Nat` (or
  `Int` where the source compares against negative bounds).
* Thrown exceptions are `Except PESError` values; operations that
  mutate `this.playerList` in place additionally return the list the
  field holds after the call, so that the state after a *failed* call
  is part of the model.
-/

namespace PES

/-- The error taxonomy of the codec: each constructor corresponds to one
`throw new Error(...)` site (the two header-validation failures share a
single message, `InvalidFile`, in the source). -/
inductive PESError where
  | TooSmall
  | InvalidFile
  | InvalidName
  | InvalidId
  | DuplicateKey
  | NotFound
  deriving DecidableEq, Repr

/-- Decidable equality on call outcomes, so that concrete runs of the
codec can be checked by evaluation. -/
instance {ε α : Type} [DecidableEq ε] [DecidableEq α] :
    DecidableEq (Except ε α) := fun x y =>
  match x, y with
  | .ok a, .ok b =>
    if h : a = b then .isTrue (by rw [h])
    else .isFalse (fun hc => h (Except.ok.inj hc))
  | .error e, .error f =>
    if h : e = f then .isTrue (by rw [h])
    else .isFalse (fun hc => h (Except.error.inj hc))
  | .ok _, .error _ => .isFalse (fun hc => Except.noConfusion hc)
  | .error _, .ok _ => .isFalse (fun hc => Except.noConfusion hc)

/-- JavaScript strings are modelled as lists of Unicode scalar values. -/
abbrev JSString := List Char

/-- The WhiteSpace and LineTerminator code points that
`String.prototype.trim` removes (ECMA-262). -/
def jsIsWhitespace (c : Char) : Bool :=
  c.toNat = 0x9 ∨ c.toNat = 0xA ∨ c.toNat = 0xB ∨ c.toNat = 0xC ∨
  c.toNat = 0xD ∨ c.toNat = 0x20 ∨ c.toNat = 0xA0 ∨ c.toNat = 0x1680 ∨
  (0x2000 ≤ c.toNat ∧ c.toNat ≤ 0x200A) ∨ c.toNat = 0x2028 ∨
  c.toNat = 0x2029 ∨ c.toNat = 0x202F ∨ c.toNat = 0x205F ∨
  c.toNat = 0x3000 ∨ c.toNat = 0xFEFF

/-- `String.prototype.trim`: strip leading and trailing whitespace. -/
def jsTrim (s : JSString) : JSString :=
  ((s.dropWhile jsIsWhitespace).reverse.dropWhile jsIsWhitespace).reverse

/-- The code points that `.` does not match in a JavaScript regular
expression without the `s` flag (LineTerminator). -/
def jsIsLineTerminator (c : Char) : Bool :=
  c.toNat = 0xA ∨ c.toNat = 0xD ∨ c.toNat = 0x2028 ∨ c.toNat = 0x2029

/-- `str.replace(/\0.*$/, "")` from `cleanString`: delete from the
leftmost NUL that is followed only by non-LineTerminator characters up
to the end of the string (`.` cannot cross a line terminator and `$`
matches only at the very end, the pattern having neither `s` nor `m`
flags); when no such NUL exists the string is unchanged. -/
def replaceNulToEnd : JSString → JSString
  | [] => []
  | c :: cs =>
    if c = '\x00' ∧ cs.all (fun d => ¬ jsIsLineTerminator d) then []
    else c :: replaceNulToEnd cs

/-- One U+FFFD replacement character (`TextDecoder` non-fatal mode). -/
def replChar : Char := Char.ofNat 0xFFFD

/-- Is `b` a UTF-8 continuation byte (0x80–0xBF)? -/
def isCont (b : Nat) : Bool := 0x80 ≤ b ∧ b < 0xC0

/-- WHATWG UTF-8 decoding in replacement mode, the behaviour of
`new TextDecoder("utf-8").decode`: maximal-subpart failures emit one
U+FFFD and resume at the offending byte. -/
def utf8Decode : List Nat → List Char
  | [] => []
  | b :: rest =>
    if b < 0x80 then Char.ofNat b :: utf8Decode rest
    else if b < 0xC2 then replChar :: utf8Decode rest
    else if b < 0xE0 then
      match rest with
      | [] => [replChar]
      | b2 :: rest2 =>
        if isCont b2 then
          Char.ofNat ((b - 0xC0) * 0x40 + (b2 - 0x80)) :: utf8Decode rest2
        else replChar :: utf8Decode (b2 :: rest2)
    else if b < 0xF0 then
      match rest with
      | [] => [replChar]
      | b2 :: rest2 =>
        if (if b = 0xE0 then 0xA0 else 0x80) ≤ b2 ∧
           b2 < (if b = 0xED then 0xA0 else 0xC0) then
          match rest2 with
          | [] => [replChar]
          | b3 :: rest3 =>
            if isCont b3 then
              Char.ofNat ((b - 0xE0) * 0x1000 + (b2 - 0x80) * 0x40 +
                (b3 - 0x80)) :: utf8Decode rest3
            else replChar :: utf8Decode (b3 :: rest3)
        else replChar :: utf8Decode (b2 :: rest2)
    else if b < 0xF5 then
      match rest with
      | [] => [replChar]
      | b2 :: rest2 =>
        if (if b = 0xF0 then 0x90 else 0x80) ≤ b2 ∧
           b2 < (if b = 0xF4 then 0x90 else 0xC0) then
          match rest2 with
          | [] => [replChar]
          | b3 :: rest3 =>
            if isCont b3 then
              match rest3 with
              | [] => [replChar]
              | b4 :: rest4 =>
                if isCont b4 then
                  Char.ofNat ((b - 0xF0) * 0x40000 + (b2 - 0x80) * 0x1000 +
                    (b3 - 0x80) * 0x40 + (b4 - 0x80)) :: utf8Decode rest4
                else replChar :: utf8Decode (b4 :: rest4)
            else replChar :: utf8Decode (b3 :: rest3)
        else replChar :: utf8Decode (b2 :: rest2)
    else replChar :: utf8Decode rest

/-- UTF-8 encoding of one scalar value (`TextEncoder`). -/
def utf8EncodeChar (c : Char) : List Nat :=
  let n := c.toNat
  if n < 0x80 then [n]
  else if n < 0x800 then [0xC0 + n / 0x40, 0x80 + n % 0x40]
  else if n < 0x10000 then
    [0xE0 + n / 0x1000, 0x80 + n / 0x40 % 0x40, 0x80 + n % 0x40]
  else
    [0xF0 + n / 0x40000, 0x80 + n / 0x1000 % 0x40, 0x80 + n / 0x40 % 0x40,
     0x80 + n % 0x40]

/-- `TextEncoder.prototype.encode` on a whole string. -/
def utf8Encode (s : JSString) : List Nat := s.flatMap utf8EncodeChar

/-- `cleanString` (src/utils.ts): decode as UTF-8, apply
`replace(/\0.*$/, "")`, then `trim()`. -/
def cleanString (buffer : List Nat) : JSString :=
  jsTrim (replaceNulToEnd (utf8Decode buffer))

/-- `isBinaryValid` (src/utils.ts): magic bytes "SEPD" at the start and
bytes [24,36) all zero.  Out-of-range reads are `none` (JavaScript
`undefined`, equal to no byte value), and `slice` clamps. -/
def isBinaryValid (buffer : List Nat) : Bool :=
  buffer[0]? = some 83 ∧ buffer[1]? = some 69 ∧ buffer[2]? = some 80 ∧
  buffer[3]? = some 68 ∧ ((buffer.drop 24).take 12).all (fun b => b = 0)

/-- `decimalToBytes` (src/utils.ts): `DataView.setUint32(0, num, true)`
stores `num` modulo 2^32 in four little-endian bytes. -/
def decimalToBytes (num : Nat) : List Nat :=
  let m := num % 2 ^ 32
  [m % 0x100, m / 0x100 % 0x100, m / 0x10000 % 0x100, m / 0x1000000 % 0x100]

/-- `Uint8Array.prototype.set(src, off)`: overwrite `buf` from position
`off` with `src`.  JavaScript throws a RangeError when the write runs
past the end; the model truncates instead, and every use below is within
bounds. -/
def setBytes (buf src : List Nat) (off : Nat) : List Nat :=
  buf.take off ++ src.take (buf.length - off) ++ buf.drop (off + src.length)

/-- One record of the commentary list (types.ts `CommentaryRecord`). -/
structure CommentaryRecord where
  commentaryName : JSString
  playerName : JSString
  deriving DecidableEq, Repr

/-- The two opaque header spans (types.ts `CommentaryMetadata`). -/
structure CommentaryMetadata where
  first : List Nat
  second : List Nat
  deriving DecidableEq, Repr

/-- A layout descriptor (parser_config.ts `PESConfig`). -/
structure PESConfig where
  COMMENTARY_PREFIX : JSString
  COMMENTARY_START_OFFSET : Nat
  COMMENTARY_NAME_LENGTH : Nat
  PLAYER_NAME_OFFSET : Nat
  PLAYER_NAME_LENGTH : Nat
  RECORD_SIZE : Nat
  deriving DecidableEq, Repr

/-- `PES2021Config` (parser_config.ts). -/
def PES2021Config : PESConfig where
  COMMENTARY_PREFIX := "EN_A1_P0_R".data
  COMMENTARY_START_OFFSET := 144
  COMMENTARY_NAME_LENGTH := 16
  PLAYER_NAME_OFFSET := 16
  PLAYER_NAME_LENGTH := 64
  RECORD_SIZE := 96

/-- `PES2017Config` (parser_config.ts). -/
def PES2017Config : PESConfig where
  COMMENTARY_PREFIX := "E_A1_P0_R".data
  COMMENTARY_START_OFFSET := 144
  COMMENTARY_NAME_LENGTH := 16
  PLAYER_NAME_OFFSET := 0
  PLAYER_NAME_LENGTH := 64
  RECORD_SIZE := 80

/-- Case folding used by the collation model below. -/
def foldChar (c : Char) : Char := c.toLower

/-- Modelled from the spec: `a.localeCompare(b, "en", { sensitivity:
"base" })` is a platform (ICU) collation; no theorem below depends on
more than it being a total comparison, so it is modelled as
case-insensitive code-point comparison returning the sign JavaScript
sort consumes. -/
def jsLocaleCompareBase : JSString → JSString → Int
  | [], [] => 0
  | [], _ :: _ => -1
  | _ :: _, [] => 1
  | x :: xs, y :: ys =>
    if (foldChar x).toNat < (foldChar y).toNat then -1
    else if (foldChar y).toNat < (foldChar x).toNat then 1
    else jsLocaleCompareBase xs ys

/-- The first character of a name, uppercased:
`player.playerName.charAt(0).toUpperCase()`.  `charAt(0)` of the empty
string is `""`, which indexes no bucket; modelled as `none`. -/
def firstCharUpper : JSString → Option Char
  | [] => none
  | c :: _ => some c.toUpper

/-- Result type of `sortAndCountPlayers` (types.ts
`SortedPlayersResult`); the `counts` object has keys "A".."Z" inserted
in that order, so `Object.values` enumerates them A→Z and the object is
modelled as the 26-entry list of its values. -/
structure SortedPlayersResult where
  sorted : List CommentaryRecord
  counts : List Nat
  deriving Repr

/-- `sortAndCountPlayers` (src/utils.ts): sort a copy of the list with
`localeCompare` and count records per first letter A–Z (a record whose
first character uppercases outside A–Z increments no bucket).
`Array.prototype.sort` is any stable comparison sort; it is modelled by
the stable `List.insertionSort` on the comparator's sign. -/
def sortAndCountPlayers (players : List CommentaryRecord) :
    SortedPlayersResult :=
  let sorted := players.insertionSort
    (fun a b => jsLocaleCompareBase a.playerName b.playerName ≤ 0)
  let counts := (List.range 26).map (fun i =>
    sorted.countP (fun r => firstCharUpper r.playerName = some (Char.ofNat (65 + i))))
  ⟨sorted, counts⟩

/-- Running sums: the `sum += count` accumulation of `save`'s
alphabet-index loop, started at `s`. -/
def cumFrom (s : Nat) : List Nat → List Nat
  | [] => []
  | c :: cs => (s + c) :: cumFrom (s + c) cs

/-- The alphabet-index loop of `save`: write each running sum as four
little-endian bytes at offsets `off`, `off+4`, …. -/
def writeAlphabet (buf : List Nat) (off : Nat) : List Nat → List Nat
  | [] => buf
  | c :: cs => writeAlphabet (setBytes buf (decimalToBytes c) off) (off + 4) cs

/-- The record loop of `save`: at each stride write the key's UTF-8
bytes truncated to `COMMENTARY_NAME_LENGTH`, then the name's UTF-8
bytes truncated to `PLAYER_NAME_OFFSET + PLAYER_NAME_LENGTH` starting
right after the key field. -/
def writeRecords (cfg : PESConfig) (buf : List Nat) (p : Nat) :
    List CommentaryRecord → List Nat
  | [] => buf
  | r :: rs =>
    let buf1 := setBytes buf
      ((utf8Encode r.commentaryName).take cfg.COMMENTARY_NAME_LENGTH) p
    let buf2 := setBytes buf1
      ((utf8Encode r.playerName).take
        (cfg.PLAYER_NAME_OFFSET + cfg.PLAYER_NAME_LENGTH))
      (p + cfg.COMMENTARY_NAME_LENGTH)
    writeRecords cfg buf2 (p + cfg.RECORD_SIZE) rs

/-- `PESCommentaryListParser.save`: allocate a zeroed buffer of
`COMMENTARY_START_OFFSET + playerList.length * RECORD_SIZE` bytes, write
`metadata.first` at 0, the record count at 16, `metadata.second` at 20,
the 26 cumulative alphabet counts at 36..136, the record count again at
136 and at 140, then the sorted records from `COMMENTARY_START_OFFSET`. -/
def save (metadata : CommentaryMetadata) (playerList : List CommentaryRecord)
    (cfg : PESConfig) : List Nat :=
  let buf0 := List.replicate
    (cfg.COMMENTARY_START_OFFSET + playerList.length * cfg.RECORD_SIZE) 0
  let buf1 := setBytes buf0 metadata.first 0
  let buf2 := setBytes buf1 (decimalToBytes playerList.length) 16
  let buf3 := setBytes buf2 metadata.second 20
  let sc := sortAndCountPlayers playerList
  let buf4 := writeAlphabet buf3 36 (cumFrom 0 sc.counts)
  let buf5 := setBytes buf4 (decimalToBytes playerList.length) 136
  let buf6 := setBytes buf5 (decimalToBytes playerList.length) 140
  writeRecords cfg buf6 cfg.COMMENTARY_START_OFFSET sc.sorted

/-- `PESCommentaryListParser.readString`: `slice(offset, offset+length)`
(clamping, as in JavaScript) then `cleanString`. -/
def readString (buffer : List Nat) (offset length : Nat) : JSString :=
  cleanString ((buffer.drop offset).take length)

/-- One record of the decode loop body, read at `pointer`. -/
def readRecordAt (cfg : PESConfig) (buffer : List Nat) (pointer : Nat) :
    CommentaryRecord where
  commentaryName := readString buffer pointer cfg.COMMENTARY_NAME_LENGTH
  playerName := readString buffer
    (pointer + cfg.PLAYER_NAME_OFFSET + cfg.COMMENTARY_NAME_LENGTH)
    cfg.PLAYER_NAME_LENGTH

/-- The decode loop of `parse`: `while (pointer + RECORD_SIZE <=
buffer.byteLength)` read one record per stride.  The loop only
terminates in JavaScript because the stride is positive; the model
carries fuel, and `parse` passes more fuel than any positive stride can
consume. -/
def parseRecords (cfg : PESConfig) (buffer : List Nat) :
    Nat → Nat → List CommentaryRecord
  | _, 0 => []
  | pointer, fuel + 1 =>
    if pointer + cfg.RECORD_SIZE ≤ buffer.length then
      readRecordAt cfg buffer pointer ::
        parseRecords cfg buffer (pointer + cfg.RECORD_SIZE) fuel
    else []

/-- `PESCommentaryListParser.parse` (the file's bytes already read):
size check, header validation, metadata extraction, record loop. -/
def parse (buffer : List Nat) (cfg : PESConfig) :
    Except PESError (CommentaryMetadata × List CommentaryRecord) :=
  if buffer.length < cfg.COMMENTARY_START_OFFSET then .error .TooSmall
  else if ¬ isBinaryValid buffer then .error .InvalidFile
  else
    .ok (⟨buffer.take 16, (buffer.drop 20).take 16⟩,
      parseRecords cfg buffer cfg.COMMENTARY_START_OFFSET (buffer.length + 1))

/-- Decimal digits, least significant first, with structural fuel: the
first argument only has to be at least the number being converted. -/
def digitsRevGo : Nat → Nat → List Nat
  | 0, n => [n]
  | fuel + 1, n => if n < 10 then [n] else n % 10 :: digitsRevGo fuel (n / 10)

/-- Decimal digits of `n`, least significant first (never empty:
`String(0)` is "0"). -/
def digitsRev (n : Nat) : List Nat := digitsRevGo n n

/-- `String(num)` for a non-negative integer: most-significant digit
first, as characters. -/
def natToString (n : Nat) : JSString :=
  (digitsRev n).reverse.map (fun d => Char.ofNat (48 + d))

/-- Modelled from the spec: `formatTo6String` is declared (with its
documented behaviour and examples) in dist/types/utils.d.ts but its
implementation file is not in the sources; per the doc comment it
formats a number to a 6-digit string with leading zeros and takes the
last 6 digits when the number is longer, i.e.
`String(num).slice(-6).padStart(6, "0")`. -/
def formatTo6String (n : Nat) : JSString :=
  let s := natToString n
  let t := s.drop (s.length - 6)
  List.replicate (6 - t.length) '0' ++ t

/-- `buildCommentaryName` (dist parser): layout prefix followed by the
6-digit id. -/
def buildCommentaryName (cfg : PESConfig) (commentaryId : Nat) : JSString :=
  cfg.COMMENTARY_PREFIX ++ formatTo6String commentaryId

/-- `createPlayer` of the dist parser: reject an empty (after `trim`)
name, an id outside 0..999999, and a duplicate key; otherwise append
one record.  The id is `Int` because the source compares it against a
negative bound before the key is built. -/
def createPlayer (cfg : PESConfig) (playerList : List CommentaryRecord)
    (commentaryId : Int) (playerName : JSString) :
    Except PESError (List CommentaryRecord) :=
  if jsTrim playerName = [] then .error .InvalidName
  else if commentaryId < 0 ∨ commentaryId > 999999 then .error .InvalidId
  else
    let commentaryName := buildCommentaryName cfg commentaryId.toNat
    if playerList.any (fun player => player.commentaryName = commentaryName)
    then .error .DuplicateKey
    else .ok (playerList ++ [⟨commentaryName, playerName⟩])

/-- `createPlayer` of the TypeScript source (src parser): no
validation at all — concatenate the prefix with the raw id string and
append. -/
def createPlayerLegacy (cfg : PESConfig) (playerList : List CommentaryRecord)
    (commentaryId : JSString) (playerName : JSString) :
    List CommentaryRecord :=
  playerList ++ [⟨cfg.COMMENTARY_PREFIX ++ commentaryId, playerName⟩]

/-- `updatePlayer` (src parser, by commentary name): `findIndex`, throw
`NotFound` at -1, else assign the new display name in place.  The pair
returned is (call outcome, content of `this.playerList` after the
call); the throw happens before any mutation, so the failing branch
returns the list unchanged.  The source's `if (this.playerList[index])`
guard is always true once `findIndex` succeeded. -/
def updatePlayerRun (playerList : List CommentaryRecord)
    (commentaryName playerName : JSString) :
    Except PESError Unit × List CommentaryRecord :=
  let index := playerList.findIdx
    (fun player => player.commentaryName = commentaryName)
  if h : index < playerList.length then
    (.ok (), playerList.set index
      ⟨(playerList.get ⟨index, h⟩).commentaryName, playerName⟩)
  else (.error .NotFound, playerList)

/-- `deletePlayer` (src parser, by commentary name): `findIndex`, throw
`NotFound` at -1, else `splice(index, 1)`. -/
def deletePlayerRun (playerList : List CommentaryRecord)
    (commentaryName : JSString) :
    Except PESError Unit × List CommentaryRecord :=
  let index := playerList.findIdx
    (fun player => player.commentaryName = commentaryName)
  if index < playerList.length then
    (.ok (), playerList.eraseIdx index)
  else (.error .NotFound, playerList)

/-- `updatePlayer` of the dist parser: identical to the by-name update
after building the key from the numeric id. -/
def updatePlayerByIdRun (cfg : PESConfig) (playerList : List CommentaryRecord)
    (commentaryId : Nat) (playerName : JSString) :
    Except PESError Unit × List CommentaryRecord :=
  updatePlayerRun playerList (buildCommentaryName cfg commentaryId) playerName

/-- `deletePlayer` of the dist parser: identical to the by-name delete
after building the key from the numeric id. -/
def deletePlayerByIdRun (cfg : PESConfig) (playerList : List CommentaryRecord)
    (commentaryId : Nat) :
    Except PESError Unit × List CommentaryRecord :=
  deletePlayerRun playerList (buildCommentaryName cfg commentaryId)

/-- The mutable fields of a `PESCommentaryListParser` instance. -/
structure ParserState where
  metadata : CommentaryMetadata
  playerList : List CommentaryRecord
  deriving Repr

/-- A call to `save` viewed as (return value, fields after the call):
the body assigns no instance field, and its only array mutation —
`Array.prototype.sort` — is applied to the spread copy
`[...this.playerList]` inside `sortAndCountPlayers`, so the fields
after the call are the fields before it. -/
def saveRun (cfg : PESConfig) (st : ParserState) : List Nat × ParserState :=
  (save st.metadata st.playerList cfg, st)

/-- A call to `sortAndCountPlayers` viewed as (return value, content of
the argument array after the call): the function sorts the copy
`[...players]`, never the argument array itself. -/
def sortAndCountPlayersRun (players : List CommentaryRecord) :
    SortedPlayersResult × List CommentaryRecord :=
  (sortAndCountPlayers players, players)

/-- The 144 header bytes `save` produces, assembled: `metadata.first`,
the record count, `metadata.second`, the first 25 cumulative alphabet
counts, then the record count twice (the write at 136 having overwritten
the 26th cumulative slot). -/
def headerBytes (m : CommentaryMetadata) (n : Nat) (cums : List Nat) :
    List Nat :=
  m.first ++ decimalToBytes n ++ m.second ++
    ((cums.take 25).map decimalToBytes).flatten ++
    decimalToBytes n ++ decimalToBytes n

/-- One record's stride as `save` leaves it: the truncated UTF-8 key
bytes zero-padded to the key field, then the truncated UTF-8 name bytes,
the rest of the stride zero. -/
def blockBytes (cfg : PESConfig) (r : CommentaryRecord) : List Nat :=
  let kb := (utf8Encode r.commentaryName).take cfg.COMMENTARY_NAME_LENGTH
  let nb := (utf8Encode r.playerName).take
    (cfg.PLAYER_NAME_OFFSET + cfg.PLAYER_NAME_LENGTH)
  kb ++ List.replicate (cfg.COMMENTARY_NAME_LENGTH - kb.length) 0 ++
    nb ++ List.replicate
      (cfg.RECORD_SIZE - cfg.COMMENTARY_NAME_LENGTH - nb.length) 0

/-- The string rule exactly as the spec sentence behind claim C5 words
it: decode the bytes as UTF-8, discard everything from the first null
character onward, then trim — for comparison with `cleanString`, whose
regex only discards a null tail not followed by a line terminator. -/
def specCleanString (buffer : List Nat) : JSString :=
  jsTrim ((utf8Decode buffer).takeWhile (fun c => c ≠ '\x00'))

/-- Does a record's display name start (after uppercasing) with one of
the 26 Latin letters, i.e. does it fall into some alphabet bucket? -/
def inSomeBucket (r : CommentaryRecord) : Bool :=
  match firstCharUpper r.playerName with
  | none => false
  | some c => 65 ≤ c.toNat ∧ c.toNat ≤ 90

/-- Pad a digit list (least significant first) with zeros up to `k`
entries: the most-significant-side zero padding of a decimal string,
seen from the reversed end. -/
def padRightZeros (k : Nat) (xs : List Nat) : List Nat :=
  xs ++ List.replicate (k - xs.length) 0

/-- A record that survives the fixed-width encoding unchanged: both
fields fit their byte fields, contain no null character, and carry no
leading or trailing whitespace (otherwise truncation, the null-tail
rule or the trim step of `cleanString` alters them). -/
def cleanRecord (cfg : PESConfig) (r : CommentaryRecord) : Prop :=
  (utf8Encode r.commentaryName).length ≤ cfg.COMMENTARY_NAME_LENGTH ∧
  (utf8Encode r.playerName).length ≤ cfg.PLAYER_NAME_LENGTH ∧
  (∀ c ∈ r.commentaryName, c ≠ '\x00') ∧
  jsTrim r.commentaryName = r.commentaryName ∧
  (∀ c ∈ r.playerName, c ≠ '\x00') ∧
  jsTrim r.playerName = r.playerName

instance (cfg : PESConfig) (r : CommentaryRecord) :
    Decidable (cleanRecord cfg r) := by
  unfold cleanRecord
  infer_instance

/-! ### Byte-buffer toolkit -/

theorem decimalToBytes_length (n : Nat) : (decimalToBytes n).length = 4 := rfl

theorem setBytes_length (buf src : List Nat) (off : Nat) :
    (setBytes buf src off).length = buf.length := by
  simp only [setBytes, List.length_append, List.length_take, List.length_drop]
  omega

theorem setBytes_of_le (buf src : List Nat) (off : Nat)
    (h : off + src.length ≤ buf.length) :
    setBytes buf src off = buf.take off ++ src ++ buf.drop (off + src.length) := by
  simp only [setBytes]
  rw [List.take_of_length_le (l := src) (i := buf.length - off) (by omega)]

theorem setBytes_append_right (A B src : List Nat) (off : Nat)
    (h : A.length ≤ off) :
    setBytes (A ++ B) src off = A ++ setBytes B src (off - A.length) := by
  simp only [setBytes, List.length_append]
  rw [List.take_append_eq_append_take, List.take_of_length_le h,
    List.drop_append_eq_append_drop, List.drop_of_length_le (by omega),
    List.nil_append, List.append_assoc]
  have h1 : off - A.length + src.length = off + src.length - A.length := by
    omega
  have h2 : A.length + B.length - off = B.length - (off - A.length) := by
    omega
  rw [h1, h2]
  simp [List.append_assoc]

theorem setBytes_append_left (A B src : List Nat) (off : Nat)
    (h : off + src.length ≤ A.length) :
    setBytes (A ++ B) src off = setBytes A src off ++ B := by
  simp only [setBytes, List.length_append]
  rw [List.take_append_of_le_length (by omega),
    List.drop_append_of_le_length (by omega),
    List.take_of_length_le (l := src) (by omega),
    List.take_of_length_le (l := src) (by omega)]
  simp [List.append_assoc]

/-! ### UTF-8 round trip -/

theorem utf8Decode_ascii (b : Nat) (t : List Nat) (h : b < 0x80) :
    utf8Decode (b :: t) = Char.ofNat b :: utf8Decode t := by
  rw [utf8Decode.eq_def]
  dsimp only
  rw [if_pos h]

theorem utf8Decode_two (b b2 : Nat) (t : List Nat)
    (h1 : 0xC2 ≤ b) (h2 : b < 0xE0) (h3 : isCont b2) :
    utf8Decode (b :: b2 :: t) =
      Char.ofNat ((b - 0xC0) * 0x40 + (b2 - 0x80)) :: utf8Decode t := by
  rw [utf8Decode.eq_def]
  dsimp only
  rw [if_neg (by omega), if_neg (by omega), if_pos h2]
  simp only [h3, if_true]

theorem utf8Decode_three (b b2 b3 : Nat) (t : List Nat)
    (h1 : 0xE0 ≤ b) (h2 : b < 0xF0)
    (h3 : (if b = 0xE0 then 0xA0 else 0x80) ≤ b2 ∧
      b2 < (if b = 0xED then 0xA0 else 0xC0)) (h5 : isCont b3) :
    utf8Decode (b :: b2 :: b3 :: t) =
      Char.ofNat ((b - 0xE0) * 0x1000 + (b2 - 0x80) * 0x40 + (b3 - 0x80)) ::
        utf8Decode t := by
  rw [utf8Decode.eq_def]
  dsimp only
  rw [if_neg (by omega), if_neg (by omega), if_neg (by omega),
    if_pos h2, if_pos h3]
  simp only [h5, if_true]

theorem utf8Decode_four (b b2 b3 b4 : Nat) (t : List Nat)
    (h1 : 0xF0 ≤ b) (h2 : b < 0xF5)
    (h3 : (if b = 0xF0 then 0x90 else 0x80) ≤ b2 ∧
      b2 < (if b = 0xF4 then 0x90 else 0xC0))
    (h5 : isCont b3) (h6 : isCont b4) :
    utf8Decode (b :: b2 :: b3 :: b4 :: t) =
      Char.ofNat ((b - 0xF0) * 0x40000 + (b2 - 0x80) * 0x1000 +
        (b3 - 0x80) * 0x40 + (b4 - 0x80)) :: utf8Decode t := by
  rw [utf8Decode.eq_def]
  dsimp only
  rw [if_neg (by omega), if_neg (by omega), if_neg (by omega),
    if_neg (by omega), if_pos h2, if_pos h3]
  simp only [h5, h6, if_true]

theorem char_toNat_valid (c : Char) :
    c.toNat < 0xD800 ∨ (0xE000 ≤ c.toNat ∧ c.toNat < 0x110000) := by
  have h := c.valid
  unfold UInt32.isValidChar Nat.isValidChar at h
  exact h

theorem utf8Decode_encodeChar (c : Char) (t : List Nat) :
    utf8Decode (utf8EncodeChar c ++ t) = c :: utf8Decode t := by
  have hval := char_toNat_valid c
  have hofNat := Char.ofNat_toNat c
  set n := c.toNat with hn
  by_cases ha : n < 0x80
  · rw [utf8EncodeChar, if_pos ha]
    rw [List.cons_append, List.nil_append, utf8Decode_ascii _ _ ha, hofNat]
  · by_cases hb : n < 0x800
    · rw [utf8EncodeChar, if_neg ha, if_pos hb]
      rw [List.cons_append, List.cons_append, List.nil_append,
        utf8Decode_two _ _ _ (by omega) (by omega)
          (by simp only [isCont, decide_eq_true_eq]; omega)]
      have : (0xC0 + n / 0x40 - 0xC0) * 0x40 + (0x80 + n % 0x40 - 0x80) = n := by
        omega
      rw [this, hofNat]
    · by_cases hc : n < 0x10000
      · rw [utf8EncodeChar, if_neg ha, if_neg hb, if_pos hc]
        rw [List.cons_append, List.cons_append, List.cons_append,
          List.nil_append,
          utf8Decode_three _ _ _ _ (by omega) (by omega) ?cond
            (by simp only [isCont, decide_eq_true_eq]; omega)]
        case cond =>
          constructor
          · split
            · next he =>
              have hne : n / 0x1000 = 0 := by omega
              have : 0x800 ≤ n := by omega
              omega
            · omega
          · split
            · next he =>
              have hne : n / 0x1000 = 0xD := by omega
              have hsur : n < 0xD800 := by
                rcases hval with h | h
                · exact h
                · omega
              omega
            · omega
        have : (0xE0 + n / 0x1000 - 0xE0) * 0x1000 +
            (0x80 + n / 0x40 % 0x40 - 0x80) * 0x40 + (0x80 + n % 0x40 - 0x80)
            = n := by omega
        rw [this, hofNat]
      · have hd : n < 0x110000 := by rcases hval with h | h <;> omega
        rw [utf8EncodeChar, if_neg ha, if_neg hb, if_neg hc]
        rw [List.cons_append, List.cons_append, List.cons_append,
          List.cons_append, List.nil_append,
          utf8Decode_four _ _ _ _ _ (by omega) (by omega) ?cond
            (by simp only [isCont, decide_eq_true_eq]; omega)
            (by simp only [isCont, decide_eq_true_eq]; omega)]
        case cond =>
          constructor
          · split
            · next he =>
              have hne : n / 0x40000 = 0 := by omega
              have : 0x10000 ≤ n := by omega
              omega
            · omega
          · split
            · next he =>
              have hne : n / 0x40000 = 4 := by omega
              omega
            · omega
        have : (0xF0 + n / 0x40000 - 0xF0) * 0x40000 +
            (0x80 + n / 0x1000 % 0x40 - 0x80) * 0x1000 +
            (0x80 + n / 0x40 % 0x40 - 0x80) * 0x40 + (0x80 + n % 0x40 - 0x80)
            = n := by omega
        rw [this, hofNat]

theorem utf8Decode_encode_append (s : JSString) (t : List Nat) :
    utf8Decode (utf8Encode s ++ t) = s ++ utf8Decode t := by
  induction s with
  | nil => simp [utf8Encode]
  | cons c cs ih =>
    simp only [utf8Encode, List.flatMap_cons, List.append_assoc]
    rw [utf8Decode_encodeChar]
    simpa [utf8Encode] using congrArg (c :: ·) ih

theorem utf8Decode_replicate_zero (k : Nat) :
    utf8Decode (List.replicate k 0) = List.replicate k '\x00' := by
  induction k with
  | zero => rfl
  | succ m ih =>
    rw [List.replicate_succ, utf8Decode_ascii _ _ (by omega), ih,
      List.replicate_succ]

/-! ### cleanString -/

theorem replaceNulToEnd_append_nulls (s : JSString) (k : Nat)
    (h : ∀ c ∈ s, c ≠ '\x00') :
    replaceNulToEnd (s ++ List.replicate k '\x00') = s := by
  induction s with
  | nil =>
    cases k with
    | zero => rfl
    | succ m =>
      have hall : (List.replicate m '\x00').all
          (fun d => ¬ jsIsLineTerminator d) = true := by
        simp only [List.all_eq_true, decide_eq_true_eq]
        intro c hc
        rw [List.eq_of_mem_replicate hc]
        decide
      rw [List.nil_append, List.replicate_succ, replaceNulToEnd,
        if_pos ⟨rfl, hall⟩]
  | cons c cs ih =>
    rw [List.cons_append, replaceNulToEnd,
      if_neg (fun hp => h c (by simp) hp.1),
      ih (fun d hd => h d (by simp [hd]))]

theorem replaceNulToEnd_eq_takeWhile (s : JSString)
    (h : ∀ c ∈ s.dropWhile (fun c => c ≠ '\x00'), ¬ jsIsLineTerminator c) :
    replaceNulToEnd s = s.takeWhile (fun c => c ≠ '\x00') := by
  induction s with
  | nil => rfl
  | cons c cs ih =>
    by_cases hc : c = '\x00'
    · subst hc
      rw [List.dropWhile_cons_of_neg (by simp)] at h
      have hall : cs.all (fun d => ¬ jsIsLineTerminator d) = true := by
        simp only [List.all_eq_true, decide_eq_true_eq]
        exact fun d hd => h d (by simp [hd])
      rw [replaceNulToEnd, if_pos ⟨rfl, hall⟩,
        List.takeWhile_cons_of_neg (by simp)]
    · rw [List.dropWhile_cons_of_pos (by simp [hc])] at h
      rw [replaceNulToEnd, if_neg (fun hp => hc hp.1), ih h,
        List.takeWhile_cons_of_pos (by simp [hc])]

theorem cleanString_encode_padded (s : JSString) (k : Nat)
    (hnul : ∀ c ∈ s, c ≠ '\x00') (htrim : jsTrim s = s) :
    cleanString (utf8Encode s ++ List.replicate k 0) = s := by
  rw [cleanString, utf8Decode_encode_append, utf8Decode_replicate_zero,
    replaceNulToEnd_append_nulls s k hnul, htrim]

/-! ### Shape of the buffer produced by save -/

theorem cumFrom_length (s : Nat) (cs : List Nat) :
    (cumFrom s cs).length = cs.length := by
  induction cs generalizing s with
  | nil => rfl
  | cons c cs ih => simp [cumFrom, ih]

theorem setBytes_zero (Q src : List Nat) (h : src.length ≤ Q.length) :
    setBytes Q src 0 = src ++ Q.drop src.length := by
  rw [setBytes_of_le _ _ _ (by omega)]
  simp

theorem setBytes_middle (P Q R src : List Nat) (off : Nat)
    (hP : P.length = off) (hsrc : src.length ≤ Q.length) :
    setBytes (P ++ Q ++ R) src off = P ++ setBytes Q src 0 ++ R := by
  rw [List.append_assoc, setBytes_append_right _ _ _ _ (by omega), hP,
    Nat.sub_self, setBytes_append_left _ _ _ _ (by omega),
    List.append_assoc]

theorem writeAlphabet_eq (cums : List Nat) : ∀ (buf : List Nat) (off : Nat),
    off + 4 * cums.length ≤ buf.length →
    writeAlphabet buf off cums =
      buf.take off ++ (cums.map decimalToBytes).flatten ++
        buf.drop (off + 4 * cums.length) := by
  induction cums with
  | nil =>
    intro buf off h
    simp [writeAlphabet]
  | cons c cs ih =>
    intro buf off h
    simp only [List.length_cons] at h
    rw [writeAlphabet, ih _ _ (by rw [setBytes_length]; omega)]
    have hset : setBytes buf (decimalToBytes c) off =
        (buf.take off ++ decimalToBytes c) ++ buf.drop (off + 4) := by
      rw [setBytes_of_le _ _ _ (by rw [decimalToBytes_length]; omega),
        decimalToBytes_length]
    have hlenAB : (buf.take off ++ decimalToBytes c).length = off + 4 := by
      rw [List.length_append, List.length_take, decimalToBytes_length]
      omega
    have htake : (setBytes buf (decimalToBytes c) off).take (off + 4) =
        buf.take off ++ decimalToBytes c := by
      rw [hset]
      exact List.take_left' hlenAB
    have hdrop : (setBytes buf (decimalToBytes c) off).drop
        (off + 4 + 4 * cs.length) = buf.drop (off + 4 + 4 * cs.length) := by
      rw [hset,
        show off + 4 + 4 * cs.length = (buf.take off ++
          decimalToBytes c).length + 4 * cs.length from by omega,
        List.drop_append, List.drop_drop]
      congr 1
      omega
    rw [htake, hdrop]
    simp only [List.length_cons, List.map_cons, List.flatten_cons]
    rw [show off + 4 * (cs.length + 1) = off + 4 + 4 * cs.length from by
      omega]
    simp [List.append_assoc]

theorem writeRecords_length (cfg : PESConfig) (rs : List CommentaryRecord) :
    ∀ (buf : List Nat) (p : Nat),
    (writeRecords cfg buf p rs).length = buf.length := by
  induction rs with
  | nil => intro buf p; rfl
  | cons r rs ih =>
    intro buf p
    rw [writeRecords, ih, setBytes_length, setBytes_length]

theorem setBytes_take_of_le (buf src : List Nat) (off t : Nat)
    (h : t ≤ off) : (setBytes buf src off).take t = buf.take t := by
  simp only [setBytes]
  by_cases hob : off ≤ buf.length
  · rw [List.take_append_of_le_length
      (by rw [List.length_append, List.length_take]; omega),
      List.take_append_of_le_length (by rw [List.length_take]; omega),
      List.take_take, Nat.min_eq_left h]
  · rw [List.take_of_length_le (l := buf) (i := off) (by omega),
      Nat.sub_eq_zero_of_le (by omega), List.take_zero,
      List.drop_of_length_le (by omega), List.append_nil, List.append_nil]

theorem writeRecords_take_of_le (cfg : PESConfig)
    (rs : List CommentaryRecord) : ∀ (buf : List Nat) (p t : Nat),
    t ≤ p → (writeRecords cfg buf p rs).take t = buf.take t := by
  induction rs with
  | nil => intro buf p t _; rfl
  | cons r rs ih =>
    intro buf p t ht
    rw [writeRecords, ih _ _ _ (by omega), setBytes_take_of_le _ _ _ _
      (by omega), setBytes_take_of_le _ _ _ _ (by omega)]

theorem blockBytes_length (cfg : PESConfig) (r : CommentaryRecord)
    (hfit : cfg.COMMENTARY_NAME_LENGTH + cfg.PLAYER_NAME_OFFSET +
      cfg.PLAYER_NAME_LENGTH ≤ cfg.RECORD_SIZE) :
    (blockBytes cfg r).length = cfg.RECORD_SIZE := by
  simp only [blockBytes, List.length_append, List.length_take,
    List.length_replicate]
  omega

theorem writeRecords_shape (cfg : PESConfig)
    (hfit : cfg.COMMENTARY_NAME_LENGTH + cfg.PLAYER_NAME_OFFSET +
      cfg.PLAYER_NAME_LENGTH ≤ cfg.RECORD_SIZE)
    (rs : List CommentaryRecord) : ∀ (P : List Nat) (p : Nat),
    P.length = p →
    writeRecords cfg (P ++ List.replicate (rs.length * cfg.RECORD_SIZE) 0)
        p rs =
      P ++ rs.flatMap (blockBytes cfg) := by
  induction rs with
  | nil => intro P p hP; simp [writeRecords]
  | cons r rs ih =>
    intro P p hP
    have hkb : ((utf8Encode r.commentaryName).take
        cfg.COMMENTARY_NAME_LENGTH).length ≤ cfg.COMMENTARY_NAME_LENGTH := by
      simp only [List.length_take]
      omega
    have hnb : ((utf8Encode r.playerName).take
        (cfg.PLAYER_NAME_OFFSET + cfg.PLAYER_NAME_LENGTH)).length ≤
        cfg.PLAYER_NAME_OFFSET + cfg.PLAYER_NAME_LENGTH := by
      simp only [List.length_take]
      omega
    rw [writeRecords]
    have hsplit : P ++ List.replicate ((r :: rs).length * cfg.RECORD_SIZE)
        (0 : Nat) = P ++ List.replicate cfg.RECORD_SIZE 0 ++
        List.replicate (rs.length * cfg.RECORD_SIZE) 0 := by
      rw [List.append_assoc, ← List.replicate_add]
      congr 2
      simp [Nat.succ_mul, Nat.add_comm]
    rw [hsplit, setBytes_middle _ _ _ _ _ hP
      (by rw [List.length_replicate]; omega)]
    rw [setBytes_zero _ _ (by rw [List.length_replicate]; omega),
      List.drop_replicate]
    -- regroup so that the second write lands at the start of the
    -- remainder of the stride
    have hre : P ++ ((utf8Encode r.commentaryName).take
          cfg.COMMENTARY_NAME_LENGTH ++
          List.replicate (cfg.RECORD_SIZE -
            ((utf8Encode r.commentaryName).take
              cfg.COMMENTARY_NAME_LENGTH).length) 0) ++
        List.replicate (rs.length * cfg.RECORD_SIZE) (0 : Nat) =
        (P ++ ((utf8Encode r.commentaryName).take
          cfg.COMMENTARY_NAME_LENGTH ++
          List.replicate (cfg.COMMENTARY_NAME_LENGTH -
            ((utf8Encode r.commentaryName).take
              cfg.COMMENTARY_NAME_LENGTH).length) 0)) ++
        List.replicate (cfg.RECORD_SIZE - cfg.COMMENTARY_NAME_LENGTH) 0 ++
        List.replicate (rs.length * cfg.RECORD_SIZE) 0 := by
      rw [show cfg.RECORD_SIZE - ((utf8Encode r.commentaryName).take
          cfg.COMMENTARY_NAME_LENGTH).length =
        (cfg.COMMENTARY_NAME_LENGTH - ((utf8Encode r.commentaryName).take
          cfg.COMMENTARY_NAME_LENGTH).length) +
        (cfg.RECORD_SIZE - cfg.COMMENTARY_NAME_LENGTH) from by omega,
        List.replicate_add]
      simp [List.append_assoc]
    rw [hre, setBytes_middle _ _ _ _ _ ?hplen
      (by rw [List.length_replicate]; omega)]
    case hplen =>
      simp only [List.length_append, List.length_replicate]
      omega
    rw [setBytes_zero _ _ (by rw [List.length_replicate]; omega),
      List.drop_replicate]
    have hfold : (P ++ ((utf8Encode r.commentaryName).take
          cfg.COMMENTARY_NAME_LENGTH ++
          List.replicate (cfg.COMMENTARY_NAME_LENGTH -
            ((utf8Encode r.commentaryName).take
              cfg.COMMENTARY_NAME_LENGTH).length) 0)) ++
        ((utf8Encode r.playerName).take
          (cfg.PLAYER_NAME_OFFSET + cfg.PLAYER_NAME_LENGTH) ++
          List.replicate (cfg.RECORD_SIZE - cfg.COMMENTARY_NAME_LENGTH -
            ((utf8Encode r.playerName).take
              (cfg.PLAYER_NAME_OFFSET +
                cfg.PLAYER_NAME_LENGTH)).length) 0) ++
        List.replicate (rs.length * cfg.RECORD_SIZE) (0 : Nat) =
        (P ++ blockBytes cfg r) ++
          List.replicate (rs.length * cfg.RECORD_SIZE) 0 := by
      simp [blockBytes, List.append_assoc]
    rw [hfold, ih _ _ (by rw [List.length_append, hP,
      blockBytes_length cfg r hfit])]
    simp [List.append_assoc]

theorem counts_length (l : List CommentaryRecord) :
    (sortAndCountPlayers l).counts.length = 26 := by
  simp [sortAndCountPlayers]

theorem flatten_map_d2b_length (xs : List Nat) :
    ((xs.map decimalToBytes).flatten).length = 4 * xs.length := by
  induction xs with
  | nil => rfl
  | cons x xs ih =>
    simp only [List.map_cons, List.flatten_cons, List.length_append, ih,
      decimalToBytes_length, List.length_cons]
    omega

set_option maxHeartbeats 1600000 in
theorem save_eq_writeRecords (m : CommentaryMetadata)
    (l : List CommentaryRecord) (cfg : PESConfig)
    (h1 : m.first.length = 16) (h2 : m.second.length = 16)
    (hstart : 144 ≤ cfg.COMMENTARY_START_OFFSET) :
    save m l cfg = writeRecords cfg
      (headerBytes m l.length (cumFrom 0 (sortAndCountPlayers l).counts) ++
        List.replicate (cfg.COMMENTARY_START_OFFSET +
          l.length * cfg.RECORD_SIZE - 144) 0)
      cfg.COMMENTARY_START_OFFSET (sortAndCountPlayers l).sorted := by
  have hL : 144 ≤ cfg.COMMENTARY_START_OFFSET + l.length * cfg.RECORD_SIZE :=
    le_trans hstart (Nat.le_add_right _ _)
  set L := cfg.COMMENTARY_START_OFFSET + l.length * cfg.RECORD_SIZE with hLdef
  set n := l.length with hndef
  set cums := cumFrom 0 (sortAndCountPlayers l).counts with hcumsdef
  have hclen : cums.length = 26 := by
    rw [hcumsdef, cumFrom_length, counts_length]
  obtain ⟨c25, hc25⟩ : ∃ c, cums.drop 25 = [c] :=
    List.length_eq_one.mp (by rw [List.length_drop, hclen])
  have hFlen : (((cums.take 25).map decimalToBytes).flatten).length = 100 := by
    rw [flatten_map_d2b_length, List.length_take, hclen]
    omega
  have e1 : setBytes (List.replicate L 0) m.first 0 =
      m.first ++ List.replicate (L - 16) 0 := by
    rw [setBytes_zero _ _ (by rw [List.length_replicate]; omega),
      List.drop_replicate, h1]
  have e2 : setBytes (m.first ++ List.replicate (L - 16) 0)
      (decimalToBytes n) 16 =
      m.first ++ (decimalToBytes n ++ List.replicate (L - 20) 0) := by
    rw [setBytes_append_right _ _ _ _ (by omega), h1, Nat.sub_self,
      setBytes_zero _ _ (by rw [List.length_replicate,
        decimalToBytes_length]; omega),
      List.drop_replicate, decimalToBytes_length]
    congr 3
  have e3 : setBytes (m.first ++ (decimalToBytes n ++
      List.replicate (L - 20) 0)) m.second 20 =
      m.first ++ (decimalToBytes n ++ (m.second ++
        List.replicate (L - 36) 0)) := by
    rw [setBytes_append_right _ _ _ _ (by omega), h1,
      setBytes_append_right _ _ _ _ (by rw [decimalToBytes_length]),
      decimalToBytes_length,
      show 20 - 16 - 4 = 0 from rfl,
      setBytes_zero _ _ (by rw [List.length_replicate]; omega),
      List.drop_replicate, h2]
    congr 4
  have hbuf3 : m.first ++ (decimalToBytes n ++ (m.second ++
      List.replicate (L - 36) 0)) =
      (m.first ++ decimalToBytes n ++ m.second) ++
        List.replicate (L - 36) 0 := by
    simp [List.append_assoc]
  have hWlen : (m.first ++ decimalToBytes n ++ m.second).length = 36 := by
    simp only [List.length_append, h1, h2, decimalToBytes_length]
  have e4 : writeAlphabet ((m.first ++ decimalToBytes n ++ m.second) ++
      List.replicate (L - 36) 0) 36 cums =
      (m.first ++ decimalToBytes n ++ m.second) ++
        (((cums.take 25).map decimalToBytes).flatten ++
          (decimalToBytes c25 ++ List.replicate (L - 140) 0)) := by
    rw [writeAlphabet_eq _ _ _ (by
      simp only [List.length_append, List.length_replicate, hWlen, hclen]
      omega)]
    rw [hclen]
    rw [List.take_append_of_le_length (by omega),
      List.take_of_length_le (by omega),
      show (36 : Nat) + 4 * 26 = (m.first ++ decimalToBytes n ++
        m.second).length + 104 from by omega,
      List.drop_append, List.drop_replicate]
    have hsplitc : (cums.map decimalToBytes).flatten =
        ((cums.take 25).map decimalToBytes).flatten ++
          (decimalToBytes c25 ++ []) := by
      conv_lhs => rw [← List.take_append_drop 25 cums]
      rw [List.map_append, List.flatten_append, hc25]
      simp
    rw [hsplitc]
    simp only [List.append_nil, List.append_assoc]
    congr 4
  have e5 : setBytes ((m.first ++ decimalToBytes n ++ m.second) ++
      (((cums.take 25).map decimalToBytes).flatten ++
        (decimalToBytes c25 ++ List.replicate (L - 140) 0)))
      (decimalToBytes n) 136 =
      (m.first ++ decimalToBytes n ++ m.second) ++
        (((cums.take 25).map decimalToBytes).flatten ++
          (decimalToBytes n ++ List.replicate (L - 140) 0)) := by
    rw [setBytes_append_right _ _ _ _ (by omega), hWlen,
      setBytes_append_right _ _ _ _ (by omega), hFlen,
      show (136 : Nat) - 36 - 100 = 0 from rfl,
      setBytes_zero _ _ (by
        simp only [List.length_append, List.length_replicate,
          decimalToBytes_length]
        omega),
      decimalToBytes_length, List.drop_left' (decimalToBytes_length c25)]
  have e6 : setBytes ((m.first ++ decimalToBytes n ++ m.second) ++
      (((cums.take 25).map decimalToBytes).flatten ++
        (decimalToBytes n ++ List.replicate (L - 140) 0)))
      (decimalToBytes n) 140 =
      (m.first ++ decimalToBytes n ++ m.second) ++
        (((cums.take 25).map decimalToBytes).flatten ++
          (decimalToBytes n ++ (decimalToBytes n ++
            List.replicate (L - 144) 0))) := by
    rw [setBytes_append_right _ _ _ _ (by omega), hWlen,
      setBytes_append_right _ _ _ _ (by omega), hFlen,
      setBytes_append_right _ _ _ _ (by rw [decimalToBytes_length]),
      decimalToBytes_length,
      show (140 : Nat) - 36 - 100 - 4 = 0 from rfl,
      setBytes_zero _ _ (by
        rw [List.length_replicate, decimalToBytes_length]
        omega),
      List.drop_replicate, decimalToBytes_length,
      show L - 140 - 4 = L - 144 from by omega]
  have hfold : (m.first ++ decimalToBytes n ++ m.second) ++
      (((cums.take 25).map decimalToBytes).flatten ++
        (decimalToBytes n ++ (decimalToBytes n ++
          List.replicate (L - 144) 0))) =
      headerBytes m n cums ++ List.replicate (L - 144) 0 := by
    rw [headerBytes]
    simp [List.append_assoc]
  simp only [save]
  rw [← hndef, ← hLdef, ← hcumsdef]
  rw [e1, e2, e3, hbuf3, e4, e5, e6, hfold]

/-! ### Shape of parse -/

theorem parseRecords_eq (cfg : PESConfig) (buffer : List Nat)
    (hstride : 0 < cfg.RECORD_SIZE) : ∀ (fuel p : Nat),
    (buffer.length - p) / cfg.RECORD_SIZE ≤ fuel →
    parseRecords cfg buffer p fuel =
      (List.range ((buffer.length - p) / cfg.RECORD_SIZE)).map
        (fun i => readRecordAt cfg buffer (p + i * cfg.RECORD_SIZE)) := by
  intro fuel
  induction fuel with
  | zero =>
    intro p h
    rw [Nat.le_zero] at h
    rw [h]
    rfl
  | succ fuel ih =>
    intro p h
    rw [parseRecords]
    by_cases hc : p + cfg.RECORD_SIZE ≤ buffer.length
    · rw [if_pos hc]
      have hq : (buffer.length - p) / cfg.RECORD_SIZE =
          (buffer.length - (p + cfg.RECORD_SIZE)) / cfg.RECORD_SIZE + 1 := by
        rw [show buffer.length - (p + cfg.RECORD_SIZE) =
          (buffer.length - p) - cfg.RECORD_SIZE from by omega,
          Nat.div_eq_sub_div hstride (by omega)]
      rw [ih _ (by omega), hq, List.range_succ_eq_map]
      simp only [List.map_cons, List.map_map, Nat.zero_mul, Nat.add_zero]
      congr 1
      apply List.map_congr_left
      intro i _
      simp only [Function.comp_apply]
      congr 1
      rw [Nat.succ_mul]
      omega
    · rw [if_neg hc]
      rw [Nat.div_eq_of_lt (by omega)]
      rfl

theorem isBinaryValid_iff (buffer : List Nat) :
    isBinaryValid buffer = true ↔
      (buffer.take 4 = [83, 69, 80, 68] ∧
        ∀ b ∈ (buffer.drop 24).take 12, b = 0) := by
  obtain _ | ⟨b0, _ | ⟨b1, _ | ⟨b2, _ | ⟨b3, t⟩⟩⟩⟩ := buffer
  all_goals simp_all [isBinaryValid, List.all_eq_true]
  tauto

theorem parse_ok (buffer : List Nat) (cfg : PESConfig)
    (hlen : cfg.COMMENTARY_START_OFFSET ≤ buffer.length)
    (hval : isBinaryValid buffer = true) :
    parse buffer cfg = .ok (⟨buffer.take 16, (buffer.drop 20).take 16⟩,
      parseRecords cfg buffer cfg.COMMENTARY_START_OFFSET
        (buffer.length + 1)) := by
  rw [parse, if_neg (by omega), if_neg (by simp [hval])]

theorem parse_tooSmall_iff (buffer : List Nat) (cfg : PESConfig) :
    parse buffer cfg = .error .TooSmall ↔
      buffer.length < cfg.COMMENTARY_START_OFFSET := by
  constructor
  · intro h
    by_contra hge
    rw [parse, if_neg hge] at h
    by_cases hv : isBinaryValid buffer
    · rw [if_neg (by simp [hv])] at h
      exact Except.noConfusion h
    · rw [if_pos (by simp [hv])] at h
      have := Except.error.inj h
      exact PESError.noConfusion this
  · intro h
    rw [parse, if_pos h]

theorem parse_invalid_iff (buffer : List Nat) (cfg : PESConfig)
    (hge : cfg.COMMENTARY_START_OFFSET ≤ buffer.length) :
    parse buffer cfg = .error .InvalidFile ↔ isBinaryValid buffer = false := by
  rw [parse, if_neg (by omega)]
  by_cases hv : isBinaryValid buffer
  · rw [if_neg (by simp [hv])]
    simp [hv]
  · rw [if_pos (by simp [hv])]
    simp [Bool.eq_false_iff, hv]


theorem flatMap_blocks_length (cfg : PESConfig)
    (hfit : cfg.COMMENTARY_NAME_LENGTH + cfg.PLAYER_NAME_OFFSET +
      cfg.PLAYER_NAME_LENGTH ≤ cfg.RECORD_SIZE)
    (rs : List CommentaryRecord) :
    (rs.flatMap (blockBytes cfg)).length = rs.length * cfg.RECORD_SIZE := by
  induction rs with
  | nil => simp
  | cons r rs ih =>
    rw [List.flatMap_cons, List.length_append, ih,
      blockBytes_length cfg r hfit, List.length_cons, Nat.succ_mul]
    omega

theorem blockBytes_clean (cfg : PESConfig) (r : CommentaryRecord)
    (hc : cleanRecord cfg r) (hpad : cfg.PLAYER_NAME_OFFSET = 0) :
    blockBytes cfg r =
      utf8Encode r.commentaryName ++
        List.replicate (cfg.COMMENTARY_NAME_LENGTH -
          (utf8Encode r.commentaryName).length) 0 ++
      utf8Encode r.playerName ++
        List.replicate (cfg.RECORD_SIZE - cfg.COMMENTARY_NAME_LENGTH -
          (utf8Encode r.playerName).length) 0 := by
  rw [blockBytes]
  rw [List.take_of_length_le hc.1,
    List.take_of_length_le (by rw [hpad]; simpa using hc.2.1)]

theorem parseRecords_blocks (cfg : PESConfig)
    (hstride : 0 < cfg.RECORD_SIZE)
    (hpad : cfg.PLAYER_NAME_OFFSET = 0)
    (hfit : cfg.COMMENTARY_NAME_LENGTH + cfg.PLAYER_NAME_LENGTH ≤
      cfg.RECORD_SIZE)
    (rs : List CommentaryRecord) :
    ∀ (P : List Nat) (fuel : Nat),
    (∀ r ∈ rs, cleanRecord cfg r) →
    rs.length ≤ fuel →
    parseRecords cfg (P ++ rs.flatMap (blockBytes cfg)) P.length fuel =
      rs := by
  have hfit3 : cfg.COMMENTARY_NAME_LENGTH + cfg.PLAYER_NAME_OFFSET +
      cfg.PLAYER_NAME_LENGTH ≤ cfg.RECORD_SIZE := by omega
  induction rs with
  | nil =>
    intro P fuel _ _
    simp only [List.flatMap_nil, List.append_nil]
    cases fuel with
    | zero => rfl
    | succ f => rw [parseRecords, if_neg (by omega)]
  | cons r rs ih =>
    intro P fuel hclean hfuel
    obtain ⟨f, rfl⟩ : ∃ f, fuel = f + 1 :=
      ⟨fuel - 1, by simp only [List.length_cons] at hfuel; omega⟩
    have hcr := hclean r (by simp)
    have hblen : (blockBytes cfg r).length = cfg.RECORD_SIZE :=
      blockBytes_length cfg r hfit3
    have hkE := hcr.1
    have hnE : (utf8Encode r.playerName).length ≤
        cfg.PLAYER_NAME_LENGTH := hcr.2.1
    have hkeyE : (utf8Encode r.commentaryName ++
        List.replicate (cfg.COMMENTARY_NAME_LENGTH -
          (utf8Encode r.commentaryName).length) 0).length =
        cfg.COMMENTARY_NAME_LENGTH := by
      simp only [List.length_append, List.length_replicate]
      omega
    have hblock := blockBytes_clean cfg r hcr hpad
    rw [List.flatMap_cons, ← List.append_assoc, parseRecords, if_pos ?cond]
    case cond =>
      simp only [List.length_append, hblen,
        flatMap_blocks_length cfg hfit3 rs]
      omega
    have hdropP : ((P ++ blockBytes cfg r) ++
        rs.flatMap (blockBytes cfg)).drop P.length =
        blockBytes cfg r ++ rs.flatMap (blockBytes cfg) := by
      rw [List.append_assoc, List.drop_left]
    congr 1
    · -- the record decoded from this stride is exactly r
      rw [readRecordAt.eq_def]
      have hkey : readString ((P ++ blockBytes cfg r) ++
          rs.flatMap (blockBytes cfg)) P.length
          cfg.COMMENTARY_NAME_LENGTH = r.commentaryName := by
        rw [readString, hdropP, hblock]
        rw [List.take_append_of_le_length (by
            simp only [List.length_append, List.length_replicate]
            omega),
          List.take_append_of_le_length (by
            simp only [List.length_append, List.length_replicate]
            omega),
          List.take_append_of_le_length (by omega),
          List.take_of_length_le (by omega)]
        exact cleanString_encode_padded _ _ hcr.2.2.1 hcr.2.2.2.1
      have hname : readString ((P ++ blockBytes cfg r) ++
          rs.flatMap (blockBytes cfg))
          (P.length + cfg.PLAYER_NAME_OFFSET + cfg.COMMENTARY_NAME_LENGTH)
          cfg.PLAYER_NAME_LENGTH = r.playerName := by
        rw [readString, hpad, Nat.add_zero, ← List.drop_drop, hdropP, hblock]
        have hre : (utf8Encode r.commentaryName ++
            List.replicate (cfg.COMMENTARY_NAME_LENGTH -
              (utf8Encode r.commentaryName).length) 0 ++
            utf8Encode r.playerName ++
            List.replicate (cfg.RECORD_SIZE - cfg.COMMENTARY_NAME_LENGTH -
              (utf8Encode r.playerName).length) 0) ++
            rs.flatMap (blockBytes cfg) =
            (utf8Encode r.commentaryName ++
              List.replicate (cfg.COMMENTARY_NAME_LENGTH -
                (utf8Encode r.commentaryName).length) 0) ++
            ((utf8Encode r.playerName ++
              List.replicate (cfg.PLAYER_NAME_LENGTH -
                (utf8Encode r.playerName).length) 0) ++
             (List.replicate (cfg.RECORD_SIZE - cfg.COMMENTARY_NAME_LENGTH -
                cfg.PLAYER_NAME_LENGTH) 0 ++
              rs.flatMap (blockBytes cfg))) := by
          rw [show cfg.RECORD_SIZE - cfg.COMMENTARY_NAME_LENGTH -
              (utf8Encode r.playerName).length =
              (cfg.PLAYER_NAME_LENGTH - (utf8Encode r.playerName).length) +
              (cfg.RECORD_SIZE - cfg.COMMENTARY_NAME_LENGTH -
                cfg.PLAYER_NAME_LENGTH) from by omega,
            List.replicate_add]
          simp only [List.append_assoc]
        rw [hre, List.drop_left' hkeyE,
          List.take_append_of_le_length (by
            simp only [List.length_append, List.length_replicate]
            omega),
          List.take_of_length_le (by
            simp only [List.length_append, List.length_replicate]
            omega)]
        exact cleanString_encode_padded _ _ hcr.2.2.2.2.1 hcr.2.2.2.2.2
      rw [hkey, hname]
    · -- the remaining strides decode to rs
      have htail := ih (P ++ blockBytes cfg r) f
        (fun x hx => hclean x (by simp [hx])) (by
          simp only [List.length_cons] at hfuel
          omega)
      rw [List.length_append, hblen] at htail
      exact htail


theorem flatten_d2b_slot (xs : List Nat) : ∀ i, i < xs.length →
    (((xs.map decimalToBytes).flatten).drop (4 * i)).take 4 =
      decimalToBytes (xs.getD i 0) := by
  induction xs with
  | nil => intro i h; simp at h
  | cons x xs ih =>
    intro i h
    cases i with
    | zero =>
      rw [List.map_cons, List.flatten_cons, Nat.mul_zero, List.drop_zero,
        List.take_append_of_le_length (by rw [decimalToBytes_length]),
        List.take_of_length_le (by rw [decimalToBytes_length])]
      rfl
    | succ j =>
      rw [List.map_cons, List.flatten_cons,
        show 4 * (j + 1) = (decimalToBytes x).length + 4 * j from by
          rw [decimalToBytes_length]; omega,
        List.drop_append, ih j (by simp at h; omega)]
      rfl

theorem headerBytes_append (m : CommentaryMetadata) (n : Nat)
    (cums : List Nat) (T : List Nat) :
    headerBytes m n cums ++ T =
      m.first ++ (decimalToBytes n ++ (m.second ++
        ((((cums.take 25).map decimalToBytes).flatten) ++
          (decimalToBytes n ++ (decimalToBytes n ++ T))))) := by
  simp [headerBytes, List.append_assoc]

theorem headerBytes_fields (m : CommentaryMetadata) (n : Nat)
    (cums : List Nat) (T : List Nat)
    (h1 : m.first.length = 16) (h2 : m.second.length = 16)
    (hc : cums.length = 26) :
    (headerBytes m n cums ++ T).take 4 = m.first.take 4 ∧
    (headerBytes m n cums ++ T).take 16 = m.first ∧
    ((headerBytes m n cums ++ T).drop 16).take 4 = decimalToBytes n ∧
    ((headerBytes m n cums ++ T).drop 20).take 16 = m.second ∧
    ((headerBytes m n cums ++ T).drop 24).take 12 = m.second.drop 4 ∧
    ((headerBytes m n cums ++ T).drop 136).take 4 = decimalToBytes n ∧
    ((headerBytes m n cums ++ T).drop 140).take 4 = decimalToBytes n ∧
    (headerBytes m n cums ++ T).drop 144 = T ∧
    (∀ i, i < 25 → ((headerBytes m n cums ++ T).drop (36 + 4 * i)).take 4 =
      decimalToBytes (cums.getD i 0)) := by
  have hF : ((((cums.take 25).map decimalToBytes).flatten)).length = 100 := by
    rw [flatten_map_d2b_length, List.length_take, hc]
    omega
  have hH := headerBytes_append m n cums T
  have hd16 : (headerBytes m n cums ++ T).drop 16 =
      decimalToBytes n ++ (m.second ++
        ((((cums.take 25).map decimalToBytes).flatten) ++
          (decimalToBytes n ++ (decimalToBytes n ++ T)))) := by
    rw [hH, List.drop_left' h1]
  have hd20 : (headerBytes m n cums ++ T).drop 20 =
      m.second ++ ((((cums.take 25).map decimalToBytes).flatten) ++
        (decimalToBytes n ++ (decimalToBytes n ++ T))) := by
    rw [show (20 : Nat) = 16 + 4 from rfl, ← List.drop_drop, hd16,
      List.drop_left' (decimalToBytes_length n)]
  have hd36 : (headerBytes m n cums ++ T).drop 36 =
      (((cums.take 25).map decimalToBytes).flatten) ++
        (decimalToBytes n ++ (decimalToBytes n ++ T)) := by
    rw [show (36 : Nat) = 20 + 16 from rfl, ← List.drop_drop, hd20,
      List.drop_left' h2]
  have hd136 : (headerBytes m n cums ++ T).drop 136 =
      decimalToBytes n ++ (decimalToBytes n ++ T) := by
    rw [show (136 : Nat) = 36 + 100 from rfl, ← List.drop_drop, hd36,
      List.drop_left' hF]
  have hd140 : (headerBytes m n cums ++ T).drop 140 =
      decimalToBytes n ++ T := by
    rw [show (140 : Nat) = 136 + 4 from rfl, ← List.drop_drop, hd136,
      List.drop_left' (decimalToBytes_length n)]
  refine ⟨?_, ?_, ?_, ?_, ?_, ?_, ?_, ?_, ?_⟩
  · rw [hH, List.take_append_of_le_length (by omega)]
  · rw [hH, List.take_append_of_le_length (by omega),
      List.take_of_length_le (by omega)]
  · rw [hd16, List.take_append_of_le_length
      (by rw [decimalToBytes_length]),
      List.take_of_length_le (by rw [decimalToBytes_length])]
  · rw [hd20, List.take_append_of_le_length (by omega),
      List.take_of_length_le (by omega)]
  · rw [show (24 : Nat) = 20 + 4 from rfl, ← List.drop_drop, hd20,
      List.drop_append_of_le_length (by omega),
      List.take_append_of_le_length (by rw [List.length_drop]; omega),
      List.take_of_length_le (by rw [List.length_drop]; omega)]
  · rw [hd136, List.take_append_of_le_length
      (by rw [decimalToBytes_length]),
      List.take_of_length_le (by rw [decimalToBytes_length])]
  · rw [hd140, List.take_append_of_le_length
      (by rw [decimalToBytes_length]),
      List.take_of_length_le (by rw [decimalToBytes_length])]
  · rw [show (144 : Nat) = 140 + 4 from rfl, ← List.drop_drop, hd140,
      List.drop_left' (decimalToBytes_length n)]
  · intro i hi
    rw [show 36 + 4 * i = 36 + 4 * i from rfl, ← List.drop_drop, hd36,
      List.drop_append_of_le_length (by omega),
      List.take_append_of_le_length (by rw [List.length_drop]; omega),
      flatten_d2b_slot _ i (by rw [List.length_take]; omega)]
    congr 1
    simp [List.getD, List.get?_eq_getElem?, List.getElem?_take, hi]

theorem headerBytes_length (m : CommentaryMetadata) (n : Nat)
    (cums : List Nat)
    (h1 : m.first.length = 16) (h2 : m.second.length = 16)
    (hc : cums.length = 26) :
    (headerBytes m n cums).length = 144 := by
  simp only [headerBytes, List.length_append, h1, h2,
    decimalToBytes_length, flatten_map_d2b_length, List.length_take, hc]
  omega


theorem take_slice_eq {x y : List Nat}
    (E : x.take 144 = y.take 144) (k w : Nat) (h : k + w ≤ 144) :
    (x.drop k).take w = (y.drop k).take w := by
  have hx : ∀ z : List Nat, (z.drop k).take w =
      ((z.take 144).drop k).take w := by
    intro z
    rw [List.drop_take, List.take_take, Nat.min_eq_left (by omega)]
  rw [hx x, hx y, E]

/-- Claim C6: `save()` returns a buffer of exactly
`recordsStartOffset + recordCount × recordStride` bytes, with
`metadata.first` written at offset 0, the record count as a 4-byte
little-endian unsigned integer at offset 16, `metadata.second` at
offset 20, and the record count written again as 4-byte little-endian
integers at offsets 136 and 140 (overwriting the last cumulative-count
slot at 136). -/
theorem claim_C6_save_layout (cfg : PESConfig) (m : CommentaryMetadata)
    (l : List CommentaryRecord)
    (h1 : m.first.length = 16) (h2 : m.second.length = 16)
    (hstart : 144 ≤ cfg.COMMENTARY_START_OFFSET) :
    (save m l cfg).length =
      cfg.COMMENTARY_START_OFFSET + l.length * cfg.RECORD_SIZE ∧
    (save m l cfg).take 16 = m.first ∧
    ((save m l cfg).drop 16).take 4 = decimalToBytes l.length ∧
    ((save m l cfg).drop 20).take 16 = m.second ∧
    ((save m l cfg).drop 136).take 4 = decimalToBytes l.length ∧
    ((save m l cfg).drop 140).take 4 = decimalToBytes l.length := by
  have hL : 144 ≤ cfg.COMMENTARY_START_OFFSET + l.length * cfg.RECORD_SIZE :=
    le_trans hstart (Nat.le_add_right _ _)
  have hclen : (cumFrom 0 (sortAndCountPlayers l).counts).length = 26 := by
    rw [cumFrom_length, counts_length]
  have hHlen := headerBytes_length m l.length
    (cumFrom 0 (sortAndCountPlayers l).counts) h1 h2 hclen
  have hsave := save_eq_writeRecords m l cfg h1 h2 hstart
  have hlen : (save m l cfg).length =
      cfg.COMMENTARY_START_OFFSET + l.length * cfg.RECORD_SIZE := by
    rw [hsave, writeRecords_length, List.length_append, hHlen,
      List.length_replicate]
    omega
  have hE : (save m l cfg).take 144 =
      (headerBytes m l.length (cumFrom 0 (sortAndCountPlayers l).counts) ++
        List.replicate (cfg.COMMENTARY_START_OFFSET +
          l.length * cfg.RECORD_SIZE - 144) 0).take 144 := by
    rw [hsave, writeRecords_take_of_le _ _ _ _ _ hstart]
  have hfields := headerBytes_fields m l.length
    (cumFrom 0 (sortAndCountPlayers l).counts)
    (List.replicate (cfg.COMMENTARY_START_OFFSET +
      l.length * cfg.RECORD_SIZE - 144) 0) h1 h2 hclen
  refine ⟨hlen, ?_, ?_, ?_, ?_, ?_⟩
  · have := take_slice_eq hE 0 16 (by omega)
    simpa using this.trans (by simpa using hfields.2.1)
  · exact (take_slice_eq hE 16 4 (by omega)).trans hfields.2.2.1
  · exact (take_slice_eq hE 20 16 (by omega)).trans hfields.2.2.2.1
  · exact (take_slice_eq hE 136 4 (by omega)).trans hfields.2.2.2.2.2.1
  · exact (take_slice_eq hE 140 4 (by omega)).trans hfields.2.2.2.2.2.2.1

theorem claim_C6_save_layout_witness :
    (16 : Nat) = 16 ∧
    (save ⟨[83, 69, 80, 68] ++ List.replicate 12 0, List.replicate 16 0⟩
      [⟨"E_A1_P0_R000001".data, "Ana".data⟩] PES2017Config).length =
      PES2017Config.COMMENTARY_START_OFFSET +
        1 * PES2017Config.RECORD_SIZE := by
  refine ⟨rfl, ?_⟩
  have h := claim_C6_save_layout PES2017Config
    ⟨[83, 69, 80, 68] ++ List.replicate 12 0, List.replicate 16 0⟩
    [⟨"E_A1_P0_R000001".data, "Ana".data⟩]
    (by decide) (by decide) (by decide)
  exact h.1

/-- Claim C2: `decode(bytes, layout)` fails with `TooSmall` exactly when
the buffer is shorter than `recordsStartOffset`; when it is at least
that long, it fails with the invalid-file-format error exactly when
bytes [0,4) differ from ASCII "SEPD" or some byte in [24,36) is
nonzero; otherwise it succeeds and returns exactly
`⌊(bufferLength − recordsStartOffset) / recordStride⌋` records, one per
full stride in file order, any trailing partial stride silently
ignored. -/
theorem claim_C2_parse_behaviour (cfg : PESConfig) (bytes : List Nat)
    (hstride : 0 < cfg.RECORD_SIZE) :
    (parse bytes cfg = .error .TooSmall ↔
      bytes.length < cfg.COMMENTARY_START_OFFSET) ∧
    (cfg.COMMENTARY_START_OFFSET ≤ bytes.length →
      (parse bytes cfg = .error .InvalidFile ↔
        ¬ (bytes.take 4 = [83, 69, 80, 68] ∧
          ∀ b ∈ (bytes.drop 24).take 12, b = 0))) ∧
    (cfg.COMMENTARY_START_OFFSET ≤ bytes.length →
      bytes.take 4 = [83, 69, 80, 68] →
      (∀ b ∈ (bytes.drop 24).take 12, b = 0) →
      parse bytes cfg = .ok (⟨bytes.take 16, (bytes.drop 20).take 16⟩,
        (List.range ((bytes.length - cfg.COMMENTARY_START_OFFSET) /
          cfg.RECORD_SIZE)).map (fun i => readRecordAt cfg bytes
            (cfg.COMMENTARY_START_OFFSET + i * cfg.RECORD_SIZE)))) := by
  refine ⟨parse_tooSmall_iff bytes cfg, ?_, ?_⟩
  · intro hge
    rw [parse_invalid_iff bytes cfg hge, ← isBinaryValid_iff bytes]
    simp
  · intro hge hm hz
    have hval : isBinaryValid bytes = true :=
      (isBinaryValid_iff bytes).mpr ⟨hm, hz⟩
    rw [parse_ok bytes cfg hge hval,
      parseRecords_eq cfg bytes hstride _ _ (by
        have := Nat.div_le_self (bytes.length - cfg.COMMENTARY_START_OFFSET)
          cfg.RECORD_SIZE
        omega)]

theorem claim_C2_parse_behaviour_witness :
    0 < PES2017Config.RECORD_SIZE ∧
    parse (List.replicate 100 0) PES2017Config = .error .TooSmall :=
  ⟨by decide,
    ((claim_C2_parse_behaviour PES2017Config (List.replicate 100 0)
      (by decide)).1).mpr (by decide)⟩


/-- Claim C1, amended: the spec's round trip holds on layouts whose
name field starts right after the key field (`nameFieldPadding = 0`,
layout B) — on layout A the encoder writes the display name
`nameFieldPadding` bytes before where the decoder reads it — and for
records whose fields fit their byte widths and are unchanged by the
decoder's null-truncation and trim (no null characters, no leading or
trailing whitespace); the metadata must satisfy the header validator it
is re-parsed through.  Then decoding the encoder's output restores the
same multiset of (key, displayName) records, reordered by the sort, and
`metadata.first` / `metadata.second` byte-for-byte. -/
theorem claim_C1_roundtrip_amended (cfg : PESConfig)
    (m : CommentaryMetadata) (l : List CommentaryRecord)
    (h1 : m.first.length = 16) (h2 : m.second.length = 16)
    (hmagic : m.first.take 4 = [83, 69, 80, 68])
    (hzero : m.second.drop 4 = List.replicate 12 0)
    (hstart : 144 ≤ cfg.COMMENTARY_START_OFFSET)
    (hstride : 0 < cfg.RECORD_SIZE)
    (hpad : cfg.PLAYER_NAME_OFFSET = 0)
    (hfit : cfg.COMMENTARY_NAME_LENGTH + cfg.PLAYER_NAME_LENGTH ≤
      cfg.RECORD_SIZE)
    (hclean : ∀ r ∈ l, cleanRecord cfg r) :
    parse (save m l cfg) cfg = .ok (m, (sortAndCountPlayers l).sorted) ∧
    ((sortAndCountPlayers l).sorted).Perm l := by
  have hperm : ((sortAndCountPlayers l).sorted).Perm l :=
    List.perm_insertionSort _ l
  have hslen : (sortAndCountPlayers l).sorted.length = l.length :=
    hperm.length_eq
  have hclen : (cumFrom 0 (sortAndCountPlayers l).counts).length = 26 := by
    rw [cumFrom_length, counts_length]
  have hHlen := headerBytes_length m l.length
    (cumFrom 0 (sortAndCountPlayers l).counts) h1 h2 hclen
  have hfit3 : cfg.COMMENTARY_NAME_LENGTH + cfg.PLAYER_NAME_OFFSET +
      cfg.PLAYER_NAME_LENGTH ≤ cfg.RECORD_SIZE := by omega
  have hPlen : (headerBytes m l.length
      (cumFrom 0 (sortAndCountPlayers l).counts) ++
      List.replicate (cfg.COMMENTARY_START_OFFSET - 144) 0).length =
      cfg.COMMENTARY_START_OFFSET := by
    rw [List.length_append, hHlen, List.length_replicate]
    omega
  have hshape : save m l cfg =
      (headerBytes m l.length
        (cumFrom 0 (sortAndCountPlayers l).counts) ++
        List.replicate (cfg.COMMENTARY_START_OFFSET - 144) 0) ++
      ((sortAndCountPlayers l).sorted).flatMap (blockBytes cfg) := by
    rw [save_eq_writeRecords m l cfg h1 h2 hstart,
      show cfg.COMMENTARY_START_OFFSET + l.length * cfg.RECORD_SIZE - 144 =
        (cfg.COMMENTARY_START_OFFSET - 144) + l.length * cfg.RECORD_SIZE
        from by omega,
      List.replicate_add, ← List.append_assoc]
    have hw := writeRecords_shape cfg hfit3 (sortAndCountPlayers l).sorted
      (headerBytes m l.length
        (cumFrom 0 (sortAndCountPlayers l).counts) ++
        List.replicate (cfg.COMMENTARY_START_OFFSET - 144) 0)
      cfg.COMMENTARY_START_OFFSET hPlen
    rw [hslen] at hw
    exact hw
  have hflat : save m l cfg =
      headerBytes m l.length (cumFrom 0 (sortAndCountPlayers l).counts) ++
      (List.replicate (cfg.COMMENTARY_START_OFFSET - 144) 0 ++
        ((sortAndCountPlayers l).sorted).flatMap (blockBytes cfg)) := by
    rw [hshape, List.append_assoc]
  have hfields := headerBytes_fields m l.length
    (cumFrom 0 (sortAndCountPlayers l).counts)
    (List.replicate (cfg.COMMENTARY_START_OFFSET - 144) 0 ++
      ((sortAndCountPlayers l).sorted).flatMap (blockBytes cfg)) h1 h2 hclen
  have hlenB : (save m l cfg).length =
      cfg.COMMENTARY_START_OFFSET + l.length * cfg.RECORD_SIZE := by
    rw [hshape, List.length_append, hPlen,
      flatMap_blocks_length cfg hfit3, hslen]
  have hge : cfg.COMMENTARY_START_OFFSET ≤ (save m l cfg).length := by
    rw [hlenB]
    omega
  have hval : isBinaryValid (save m l cfg) = true := by
    rw [isBinaryValid_iff]
    constructor
    · rw [hflat, hfields.1, hmagic]
    · rw [hflat, hfields.2.2.2.2.1, hzero]
      simp
  have h16 : (save m l cfg).take 16 = m.first := by
    rw [hflat]
    exact hfields.2.1
  have h20 : ((save m l cfg).drop 20).take 16 = m.second := by
    rw [hflat]
    exact hfields.2.2.2.1
  have hrecs : parseRecords cfg (save m l cfg)
      cfg.COMMENTARY_START_OFFSET ((save m l cfg).length + 1) =
      (sortAndCountPlayers l).sorted := by
    have hfuel : (sortAndCountPlayers l).sorted.length ≤
        (save m l cfg).length + 1 := by
      rw [hslen, hlenB]
      have : l.length ≤ l.length * cfg.RECORD_SIZE :=
        Nat.le_mul_of_pos_right _ hstride
      omega
    have h := parseRecords_blocks cfg hstride hpad hfit
      (sortAndCountPlayers l).sorted
      (headerBytes m l.length
        (cumFrom 0 (sortAndCountPlayers l).counts) ++
        List.replicate (cfg.COMMENTARY_START_OFFSET - 144) 0)
      ((save m l cfg).length + 1)
      (fun r hr => hclean r (hperm.mem_iff.mp hr)) hfuel
    rw [hPlen] at h
    rw [hshape] at h ⊢
    exact h
  refine ⟨?_, hperm⟩
  rw [parse_ok (save m l cfg) cfg hge hval, h16, h20, hrecs]

theorem claim_C1_roundtrip_amended_witness :
    (∀ r ∈ [(⟨"E_A1_P0_R000001".data, "Ana".data⟩ : CommentaryRecord),
        ⟨"E_A1_P0_R000002".data, "Bob".data⟩],
      cleanRecord PES2017Config r) ∧
    (parse (save ⟨[83, 69, 80, 68] ++ List.replicate 12 0,
        List.replicate 16 0⟩
      [⟨"E_A1_P0_R000001".data, "Ana".data⟩,
       ⟨"E_A1_P0_R000002".data, "Bob".data⟩] PES2017Config)
      PES2017Config =
      .ok (⟨[83, 69, 80, 68] ++ List.replicate 12 0, List.replicate 16 0⟩,
        (sortAndCountPlayers
          [⟨"E_A1_P0_R000001".data, "Ana".data⟩,
           ⟨"E_A1_P0_R000002".data, "Bob".data⟩]).sorted) ∧
      ((sortAndCountPlayers
          [⟨"E_A1_P0_R000001".data, "Ana".data⟩,
           ⟨"E_A1_P0_R000002".data, "Bob".data⟩]).sorted).Perm
        [⟨"E_A1_P0_R000001".data, "Ana".data⟩,
         ⟨"E_A1_P0_R000002".data, "Bob".data⟩]) :=
  ⟨by decide,
    claim_C1_roundtrip_amended PES2017Config
      ⟨[83, 69, 80, 68] ++ List.replicate 12 0, List.replicate 16 0⟩
      [⟨"E_A1_P0_R000001".data, "Ana".data⟩,
       ⟨"E_A1_P0_R000002".data, "Bob".data⟩]
      (by decide) (by decide) (by decide) (by decide) (by decide)
      (by decide) (by decide) (by decide) (by decide)⟩

set_option maxRecDepth 8000 in
/-- Claim C1 counterexample: as stated — for every layout — the round
trip fails.  On layout A (PES 2021, `nameFieldPadding = 16`) the
encoder writes the display name immediately after the key field while
the decoder reads it 16 bytes later, so the single record named "Ana"
decodes back with an empty display name and the set of
(key, displayName) pairs is not restored. -/
theorem claim_C1_counterexample :
    parse (save ⟨[83, 69, 80, 68] ++ List.replicate 12 0,
        List.replicate 16 0⟩
      [⟨"EN_A1_P0_R000001".data, "Ana".data⟩] PES2021Config)
      PES2021Config =
      .ok (⟨[83, 69, 80, 68] ++ List.replicate 12 0, List.replicate 16 0⟩,
        [⟨"EN_A1_P0_R000001".data, []⟩]) ∧
    ¬ ([(⟨"EN_A1_P0_R000001".data, []⟩ : CommentaryRecord)].Perm
        [(⟨"EN_A1_P0_R000001".data, "Ana".data⟩ : CommentaryRecord)]) := by
  constructor
  · rfl
  · intro h
    have h2 := List.singleton_perm.mp h
    simp at h2


/-! ### Alphabet index: cumulative counts -/

theorem toNat_ofNat_of_valid (m : Nat) (h : m.isValidChar) :
    (Char.ofNat m).toNat = m := by
  rw [Char.ofNat, dif_pos h]
  simp [Char.ofNatAux, Char.toNat, UInt32.toNat]

theorem char_eq_ofNat_iff (c : Char) (m : Nat) (hm : m.isValidChar) :
    c = Char.ofNat m ↔ c.toNat = m := by
  constructor
  · intro h
    rw [h, toNat_ofNat_of_valid m hm]
  · intro h
    rw [← h, Char.ofNat_toNat]

theorem cumFrom_chain (cs : List Nat) : ∀ s,
    List.Chain' (· ≤ ·) (cumFrom s cs) := by
  induction cs with
  | nil => intro s; simp [cumFrom]
  | cons c cs ih =>
    intro s
    rw [cumFrom]
    cases cs with
    | nil => simp [cumFrom]
    | cons d ds =>
      have h := ih (s + c)
      rw [cumFrom] at h ⊢
      exact List.chain'_cons.mpr ⟨by omega, h⟩

theorem cumFrom_getLast (cs : List Nat) : ∀ s, cs ≠ [] →
    (cumFrom s cs).getLast? = some (s + cs.sum) := by
  induction cs with
  | nil => intro s h; exact absurd rfl h
  | cons c cs ih =>
    intro s _
    rw [cumFrom]
    cases cs with
    | nil => simp [cumFrom]
    | cons d ds =>
      have h := ih (s + c) (by simp)
      rw [cumFrom] at h ⊢
      rw [List.getLast?_cons_cons, h]
      simp only [List.sum_cons, Option.some.injEq]
      omega

theorem sum_map_add (n : Nat) (f g : Nat → Nat) :
    ((List.range n).map (fun i => f i + g i)).sum =
      ((List.range n).map f).sum + ((List.range n).map g).sum := by
  induction n with
  | zero => rfl
  | succ k ih =>
    rw [List.range_succ]
    simp only [List.map_append, List.sum_append, List.map_cons,
      List.map_nil, List.sum_cons, List.sum_nil, ih]
    omega

theorem sum_indicator_range (n k : Nat) :
    ((List.range n).map (fun i => if i = k then (1 : Nat) else 0)).sum =
      if k < n then 1 else 0 := by
  induction n with
  | zero => simp
  | succ j ih =>
    rw [List.range_succ]
    simp only [List.map_append, List.sum_append, List.map_cons,
      List.map_nil, List.sum_cons, List.sum_nil, ih]
    split_ifs <;> omega

theorem bucket_indicator_sum (r : CommentaryRecord) :
    ((List.range 26).map (fun i =>
      if firstCharUpper r.playerName = some (Char.ofNat (65 + i))
      then (1 : Nat) else 0)).sum =
      if inSomeBucket r then 1 else 0 := by
  match hf : firstCharUpper r.playerName with
  | none =>
    have hcongr : ∀ i ∈ List.range 26,
        (if (none : Option Char) = some (Char.ofNat (65 + i))
          then (1 : Nat) else 0) = 0 :=
      fun i _ => if_neg (by simp)
    rw [List.map_congr_left hcongr]
    simp [inSomeBucket, hf]
  | some c =>
    by_cases hc : 65 ≤ c.toNat ∧ c.toNat ≤ 90
    · have hcongr : ∀ i ∈ List.range 26,
          (if some c = some (Char.ofNat (65 + i)) then (1 : Nat) else 0) =
          (if i = c.toNat - 65 then (1 : Nat) else 0) := by
        intro i hi
        rw [List.mem_range] at hi
        have hval : (65 + i).isValidChar := Or.inl (by omega)
        by_cases he : c.toNat = 65 + i
        · rw [if_pos (by
            rw [Option.some.injEq, char_eq_ofNat_iff c _ hval]
            exact he), if_pos (by omega)]
        · rw [if_neg (by
            rw [Option.some.injEq, char_eq_ofNat_iff c _ hval]
            exact he), if_neg (by omega)]
      rw [List.map_congr_left hcongr, sum_indicator_range,
        if_pos (by omega)]
      have hb : inSomeBucket r = true := by
        simp only [inSomeBucket, hf]
        simp only [decide_eq_true_eq, Bool.and_eq_true]
        constructor <;> [skip; skip] <;> simp [hc.1, hc.2]
      rw [if_pos hb]
    · have hcongr : ∀ i ∈ List.range 26,
          (if some c = some (Char.ofNat (65 + i)) then (1 : Nat) else 0) =
          0 := by
        intro i hi
        rw [List.mem_range] at hi
        have hval : (65 + i).isValidChar := Or.inl (by omega)
        rw [if_neg (by
          rw [Option.some.injEq, char_eq_ofNat_iff c _ hval]
          intro hx
          exact hc (by omega))]
      rw [List.map_congr_left hcongr]
      have hb : inSomeBucket r = false := by
        simp only [inSomeBucket, hf]
        simp only [Bool.and_eq_false_iff, decide_eq_false_iff_not]
        omega
      rw [if_neg (by simp [hb])]
      simp

theorem counts_sum (players : List CommentaryRecord) :
    ((List.range 26).map (fun i => players.countP (fun r =>
      firstCharUpper r.playerName = some (Char.ofNat (65 + i))))).sum =
      players.countP inSomeBucket := by
  induction players with
  | nil => simp
  | cons r t ih =>
    simp only [List.countP_cons, decide_eq_true_eq]
    rw [sum_map_add 26
      (fun i => t.countP (fun r =>
        firstCharUpper r.playerName = some (Char.ofNat (65 + i))))
      (fun i => if firstCharUpper r.playerName = some (Char.ofNat (65 + i))
        then 1 else 0),
      ih, bucket_indicator_sum]

/-- Claim C4, amended: the 26 values the encoder's alphabet loop writes
at offsets 36, 40, …, 136 are the running cumulative counts, in fixed
A→Z order, of records whose displayName's first character uppercased
equals each letter (the first 25 remain in the final buffer; the 26th,
at 136, is then overwritten by the total record count); the sequence is
monotonically non-decreasing; and the sum after 'Z' equals the number
of records whose displayName starts with a Latin letter after
uppercasing — which is at most `records.length`, with equality when
every record's name does (records starting outside A–Z fall into no
bucket, so in general the claimed equality with `records.length`
fails). -/
theorem claim_C4_alphabet_index (cfg : PESConfig) (m : CommentaryMetadata)
    (l : List CommentaryRecord)
    (h1 : m.first.length = 16) (h2 : m.second.length = 16)
    (hstart : 144 ≤ cfg.COMMENTARY_START_OFFSET) :
    (∀ i, i < 25 → ((save m l cfg).drop (36 + 4 * i)).take 4 =
      decimalToBytes
        ((cumFrom 0 (sortAndCountPlayers l).counts).getD i 0)) ∧
    List.Chain' (· ≤ ·) (cumFrom 0 (sortAndCountPlayers l).counts) ∧
    (cumFrom 0 (sortAndCountPlayers l).counts).getLast? =
      some (l.countP inSomeBucket) ∧
    l.countP inSomeBucket ≤ l.length ∧
    ((∀ r ∈ l, inSomeBucket r) → l.countP inSomeBucket = l.length) := by
  have hclen : (cumFrom 0 (sortAndCountPlayers l).counts).length = 26 := by
    rw [cumFrom_length, counts_length]
  have hcs : (sortAndCountPlayers l).counts.sum = l.countP inSomeBucket := by
    have hdef : (sortAndCountPlayers l).counts =
        (List.range 26).map (fun i =>
          ((sortAndCountPlayers l).sorted).countP (fun r =>
            firstCharUpper r.playerName = some (Char.ofNat (65 + i)))) := rfl
    rw [hdef, counts_sum]
    exact (List.perm_insertionSort _ l).countP_eq _
  refine ⟨?_, cumFrom_chain _ 0, ?_, List.countP_le_length _, ?_⟩
  · intro i hi
    have hE : (save m l cfg).take 144 =
        (headerBytes m l.length
          (cumFrom 0 (sortAndCountPlayers l).counts) ++
          List.replicate (cfg.COMMENTARY_START_OFFSET +
            l.length * cfg.RECORD_SIZE - 144) 0).take 144 := by
      rw [save_eq_writeRecords m l cfg h1 h2 hstart,
        writeRecords_take_of_le _ _ _ _ _ hstart]
    have hfields := headerBytes_fields m l.length
      (cumFrom 0 (sortAndCountPlayers l).counts)
      (List.replicate (cfg.COMMENTARY_START_OFFSET +
        l.length * cfg.RECORD_SIZE - 144) 0) h1 h2 hclen
    exact (take_slice_eq hE (36 + 4 * i) 4 (by omega)).trans
      (hfields.2.2.2.2.2.2.2.2 i hi)
  · rw [cumFrom_getLast _ 0 (by
      intro hnil
      have := counts_length l
      rw [hnil] at this
      simp at this), Nat.zero_add, hcs]
  · intro hall
    exact List.countP_eq_length.mpr (fun r hr => by
      simpa using hall r hr)

theorem claim_C4_alphabet_index_witness :
    (16 : Nat) = 16 ∧
    (cumFrom 0 (sortAndCountPlayers
      [(⟨"E_A1_P0_R000001".data, "Ana".data⟩ : CommentaryRecord)]).counts
      ).getLast? =
      some ([(⟨"E_A1_P0_R000001".data, "Ana".data⟩ :
        CommentaryRecord)].countP inSomeBucket) := by
  refine ⟨rfl, ?_⟩
  exact (claim_C4_alphabet_index PES2017Config
    ⟨[83, 69, 80, 68] ++ List.replicate 12 0, List.replicate 16 0⟩
    [⟨"E_A1_P0_R000001".data, "Ana".data⟩]
    (by decide) (by decide) (by decide)).2.2.1

/-- Claim C4 counterexample: for the single record named "123" the
running sum after 'Z' is 0, not `records.length = 1` — a first
character that uppercases outside A–Z falls into no bucket, so the
claim's "the sum after 'Z' equals the total record count" fails. -/
theorem claim_C4_counterexample :
    (cumFrom 0 (sortAndCountPlayers
      [(⟨"EN_A1_P0_R000001".data, "123".data⟩ :
        CommentaryRecord)]).counts).getLast? = some 0 ∧
    [(⟨"EN_A1_P0_R000001".data, "123".data⟩ :
      CommentaryRecord)].length = 1 ∧ (0 : Nat) ≠ 1 := by
  decide

/-- Claim C5, amended: `cleanString` returns the UTF-8 decoding of the
bytes with everything from the first null byte onward discarded and the
remainder trimmed, provided no line-terminator character occurs at or
after the first null in the decoded text; when one does, the regular
expression `/\0.*$/` (whose `.` cannot cross a line terminator and
whose `$` only matches at the very end) finds no match and the null
bytes survive into the result. -/
theorem claim_C5_cleanString_amended (bytes : List Nat)
    (h : ∀ c ∈ (utf8Decode bytes).dropWhile (fun c => c ≠ '\x00'),
      ¬ jsIsLineTerminator c) :
    cleanString bytes = specCleanString bytes := by
  rw [cleanString, specCleanString, replaceNulToEnd_eq_takeWhile _ h]

theorem claim_C5_cleanString_amended_witness :
    (∀ c ∈ (utf8Decode [77, 101, 115, 115, 105, 0, 0]).dropWhile
      (fun c => c ≠ '\x00'), ¬ jsIsLineTerminator c) ∧
    cleanString [77, 101, 115, 115, 105, 0, 0] =
      specCleanString [77, 101, 115, 115, 105, 0, 0] ∧
    cleanString [77, 101, 115, 115, 105, 0, 0] = "Messi".data :=
  ⟨by decide, claim_C5_cleanString_amended _ (by decide), by decide⟩

/-- Claim C5 counterexample: on the bytes "A\0\n" the decoded text has
a line terminator after the first null, the regex finds no match, and
`cleanString` keeps the null: it returns "A\0" where the claim's rule
says "A". -/
theorem claim_C5_counterexample :
    cleanString [65, 0, 10] = ['A', '\x00'] ∧
    specCleanString [65, 0, 10] = ['A'] ∧
    cleanString [65, 0, 10] ≠ specCleanString [65, 0, 10] := by
  decide

/-! ### Decimal digits and formatTo6String -/

theorem digitsRevGo_congr : ∀ (f1 : Nat) (n f2 : Nat), n ≤ f1 → n ≤ f2 →
    digitsRevGo f1 n = digitsRevGo f2 n := by
  intro f1
  induction f1 with
  | zero =>
    intro n f2 h1 _
    cases f2 with
    | zero => rfl
    | succ g =>
      rw [show n = 0 from by omega]
      rw [digitsRevGo, digitsRevGo, if_pos (by omega)]
  | succ f ih =>
    intro n f2 h1 h2
    cases f2 with
    | zero =>
      rw [show n = 0 from by omega]
      rw [digitsRevGo, digitsRevGo, if_pos (by omega)]
    | succ g =>
      rw [digitsRevGo, digitsRevGo]
      by_cases hn : n < 10
      · rw [if_pos hn, if_pos hn]
      · rw [if_neg hn, if_neg hn]
        have hd : n / 10 < n := Nat.div_lt_self (by omega) (by omega)
        rw [ih (n / 10) g (by omega) (by omega)]

theorem digitsRev_eq (n : Nat) :
    digitsRev n = if n < 10 then [n] else n % 10 :: digitsRev (n / 10) := by
  by_cases h : n < 10
  · rw [if_pos h]
    cases n with
    | zero => rfl
    | succ m =>
      rw [digitsRev, digitsRevGo, if_pos h]
  · rw [if_neg h]
    obtain ⟨m, rfl⟩ : ∃ m, n = m + 1 := ⟨n - 1, by omega⟩
    rw [digitsRev, digitsRevGo, if_neg h, digitsRev]
    have hd : (m + 1) / 10 < m + 1 := Nat.div_lt_self (by omega) (by omega)
    rw [digitsRevGo_congr m ((m + 1) / 10) ((m + 1) / 10) (by omega)
      (le_refl _)]

theorem digitsRev_length_le : ∀ (k n : Nat), 1 ≤ k → n < 10 ^ k →
    (digitsRev n).length ≤ k := by
  intro k
  induction k with
  | zero => intro n h; omega
  | succ j ih =>
    intro n _ h2
    rw [digitsRev_eq]
    by_cases hn : n < 10
    · rw [if_pos hn]
      simp
    · rw [if_neg hn]
      have hj : 1 ≤ j := by
        by_contra hj
        have : j = 0 := by omega
        subst this
        simp [pow_succ, pow_zero] at h2
        omega
      have hdiv : n / 10 < 10 ^ j := by
        rw [Nat.div_lt_iff_lt_mul (by omega)]
        calc n < 10 ^ (j + 1) := h2
        _ = 10 ^ j * 10 := by ring
      have := ih (n / 10) hj hdiv
      simp only [List.length_cons]
      omega

theorem padRightZeros_cons (k a : Nat) (xs : List Nat) :
    padRightZeros (k + 1) (a :: xs) = a :: padRightZeros k xs := by
  simp [padRightZeros, Nat.succ_sub_succ]

theorem digits_take_mod : ∀ (k n : Nat),
    padRightZeros (k + 1) ((digitsRev n).take (k + 1)) =
      padRightZeros (k + 1) (digitsRev (n % 10 ^ (k + 1))) := by
  intro k
  induction k with
  | zero =>
    intro n
    rw [Nat.pow_one]
    by_cases h : n < 10
    · rw [Nat.mod_eq_of_lt h, digitsRev_eq n, if_pos h,
        List.take_succ_cons, List.take_nil]
    · rw [digitsRev_eq n, if_neg h,
        digitsRev_eq (n % 10), if_pos (Nat.mod_lt n (by omega)),
        List.take_succ_cons, List.take_zero]
  | succ j ih =>
    intro n
    by_cases h : n < 10
    · have hle : n < 10 ^ (j + 2) := by
        calc n < 10 := h
        _ ≤ 10 ^ (j + 2) := Nat.le_self_pow (by omega) 10
      rw [Nat.mod_eq_of_lt hle, digitsRev_eq n, if_pos h,
        List.take_of_length_le (by simp)]
    · have hm10 : n % 10 ^ (j + 2) % 10 = n % 10 :=
        Nat.mod_mod_of_dvd n ⟨10 ^ (j + 1), by ring⟩
      have hmdiv : n % 10 ^ (j + 2) / 10 = n / 10 % 10 ^ (j + 1) := by
        rw [show (10 : Nat) ^ (j + 2) = 10 * 10 ^ (j + 1) from by ring,
          Nat.mod_mul_right_div_self]
      rw [digitsRev_eq n, if_neg h, List.take_succ_cons,
        padRightZeros_cons, ih (n / 10)]
      by_cases hm : n % 10 ^ (j + 2) < 10
      · have h0 : n / 10 % 10 ^ (j + 1) = 0 := by
          rw [← hmdiv]
          omega
        have hnm : n % 10 = n % 10 ^ (j + 2) := by
          have := hm10
          omega
        rw [h0, digitsRev_eq (n % 10 ^ (j + 2)), if_pos hm, hnm]
        rw [show digitsRev 0 = [0] from rfl]
        simp [padRightZeros, List.replicate_succ]
      · rw [digitsRev_eq (n % 10 ^ (j + 2)), if_neg hm,
          padRightZeros_cons, hm10, hmdiv]

theorem pad_reverse_map (zs : List Nat) :
    ((padRightZeros 6 zs).reverse).map (fun d => Char.ofNat (48 + d)) =
      List.replicate (6 - zs.length) '0' ++
        (zs.reverse.map (fun d => Char.ofNat (48 + d))) := by
  rw [padRightZeros, List.reverse_append, List.reverse_replicate,
    List.map_append, List.map_replicate]

theorem formatTo6String_pad (n : Nat) :
    formatTo6String n =
      ((padRightZeros 6 ((digitsRev n).take 6)).reverse).map
        (fun d => Char.ofNat (48 + d)) := by
  rw [formatTo6String, natToString, pad_reverse_map]
  have ht : ((digitsRev n).reverse.map
      (fun d => Char.ofNat (48 + d))).drop
      (((digitsRev n).reverse.map (fun d => Char.ofNat (48 + d))).length
        - 6) =
      (((digitsRev n).take 6).reverse).map (fun d => Char.ofNat (48 + d)) := by
    rw [List.reverse_take, List.map_drop]
    simp
  rw [ht]
  congr 2
  simp

theorem formatTo6String_mod (n : Nat) :
    formatTo6String n =
      List.replicate (6 - (natToString (n % 1000000)).length) '0' ++
        natToString (n % 1000000) := by
  rw [formatTo6String_pad,
    show (6 : Nat) = 5 + 1 from rfl, digits_take_mod 5 n,
    show (10 : Nat) ^ (5 + 1) = 1000000 from by norm_num,
    ← show (6 : Nat) = 5 + 1 from rfl, pad_reverse_map, natToString]
  congr 2
  simp


/-- Claim C3: `createPlayer` of the dist parser rejects an empty or
whitespace-only name with `InvalidName`, an id outside 0..999999 with
`InvalidId` (the name check running first), a duplicate derived key
with `DuplicateKey`, and otherwise appends exactly one record whose key
is the layout prefix followed by the id; for an id in range the
6-character form is the id zero-padded to 6 digits. -/
theorem claim_C3_createPlayer (cfg : PESConfig)
    (l : List CommentaryRecord) (id : Int) (name : JSString) :
    (jsTrim name = [] → createPlayer cfg l id name = .error .InvalidName) ∧
    (jsTrim name ≠ [] → (id < 0 ∨ id > 999999) →
      createPlayer cfg l id name = .error .InvalidId) ∧
    (jsTrim name ≠ [] → 0 ≤ id → id ≤ 999999 →
      (∃ r ∈ l, r.commentaryName = buildCommentaryName cfg id.toNat) →
      createPlayer cfg l id name = .error .DuplicateKey) ∧
    (jsTrim name ≠ [] → 0 ≤ id → id ≤ 999999 →
      (∀ r ∈ l, r.commentaryName ≠ buildCommentaryName cfg id.toNat) →
      createPlayer cfg l id name =
        .ok (l ++ [⟨buildCommentaryName cfg id.toNat, name⟩])) ∧
    (buildCommentaryName cfg id.toNat = cfg.COMMENTARY_PREFIX ++
      (List.replicate (6 - (natToString (id.toNat % 1000000)).length) '0' ++
        natToString (id.toNat % 1000000))) := by
  refine ⟨?_, ?_, ?_, ?_, ?_⟩
  · intro hname
    rw [createPlayer, if_pos hname]
  · intro hname hid
    rw [createPlayer, if_neg hname, if_pos hid]
  · intro hname hl hu hdup
    rw [createPlayer, if_neg hname, if_neg (by omega),
      if_pos (by
        rw [List.any_eq_true]
        obtain ⟨r, hr, he⟩ := hdup
        exact ⟨r, hr, by simp [he]⟩)]
  · intro hname hl hu hdup
    rw [createPlayer, if_neg hname, if_neg (by omega),
      if_neg (by
        rw [List.any_eq_true]
        rintro ⟨r, hr, he⟩
        exact hdup r hr (by simpa using he))]
  · rw [buildCommentaryName, formatTo6String_mod]

theorem claim_C3_createPlayer_witness :
    jsTrim "Mohamed Salah".data ≠ [] ∧
    createPlayer PES2021Config [] 57123 "Mohamed Salah".data =
      .ok [⟨"EN_A1_P0_R057123".data, "Mohamed Salah".data⟩] ∧
    createPlayer PES2021Config [] (-1) "X".data = .error .InvalidId ∧
    createPlayer PES2021Config [] 1000000 "X".data = .error .InvalidId ∧
    createPlayer PES2021Config [] 3 "   ".data = .error .InvalidName ∧
    createPlayer PES2021Config [⟨"EN_A1_P0_R057123".data, "X".data⟩]
      57123 "Y".data = .error .DuplicateKey := by
  refine ⟨by decide, ?_, ?_, ?_, ?_, ?_⟩
  · rw [(claim_C3_createPlayer PES2021Config [] 57123
      "Mohamed Salah".data).2.2.2.1 (by decide) (by decide) (by decide)
      (by intro r hr; simp at hr)]
    decide
  · exact (claim_C3_createPlayer PES2021Config [] (-1) "X".data).2.1
      (by decide) (by decide)
  · exact (claim_C3_createPlayer PES2021Config [] 1000000 "X".data).2.1
      (by decide) (by decide)
  · exact (claim_C3_createPlayer PES2021Config [] 3 "   ".data).1
      (by decide)
  · exact (claim_C3_createPlayer PES2021Config
      [⟨"EN_A1_P0_R057123".data, "X".data⟩] 57123 "Y".data).2.2.1
      (by decide) (by decide) (by decide) (by decide)


theorem set_get_self_nat {α : Type} (l : List α) (i : Nat)
    (h : i < l.length) : l.set i (l.get ⟨i, h⟩) = l := by
  apply List.ext_getElem
  · simp
  · intro n h1 h2
    by_cases hn : n = i
    · subst hn
      simp
    · rw [List.getElem_set_ne (by omega)]

theorem findIdx_not_lt_of_absent (l : List CommentaryRecord)
    (k : JSString) (habs : ∀ r ∈ l, r.commentaryName ≠ k) :
    ¬ (l.findIdx (fun player => player.commentaryName = k) < l.length) := by
  rw [List.findIdx_lt_length]
  rintro ⟨r, hr, hp⟩
  exact habs r hr (by simpa using hp)

/-- Claim C7: `updatePlayer` and `deletePlayer` called with a key that
is not present both fail with `NotFound`, and the collection is
byte-for-byte unchanged — same records in the same order — after the
failed call (the throw happens before any mutation). -/
theorem claim_C7_notFound_frame (l : List CommentaryRecord)
    (commentaryName playerName : JSString)
    (habs : ∀ r ∈ l, r.commentaryName ≠ commentaryName) :
    updatePlayerRun l commentaryName playerName = (.error .NotFound, l) ∧
    deletePlayerRun l commentaryName = (.error .NotFound, l) := by
  have h := findIdx_not_lt_of_absent l commentaryName habs
  constructor
  · rw [updatePlayerRun, dif_neg h]
  · rw [deletePlayerRun, if_neg h]

theorem claim_C7_notFound_frame_witness :
    (∀ r ∈ [(⟨"EN_A1_P0_R000001".data, "Ana".data⟩ : CommentaryRecord)],
      r.commentaryName ≠ "EN_A1_P0_R000002".data) ∧
    updatePlayerRun [⟨"EN_A1_P0_R000001".data, "Ana".data⟩]
      "EN_A1_P0_R000002".data "Bob".data =
      (.error .NotFound, [⟨"EN_A1_P0_R000001".data, "Ana".data⟩]) ∧
    deletePlayerRun [⟨"EN_A1_P0_R000001".data, "Ana".data⟩]
      "EN_A1_P0_R000002".data =
      (.error .NotFound, [⟨"EN_A1_P0_R000001".data, "Ana".data⟩]) := by
  refine ⟨by decide, ?_, ?_⟩
  · exact (claim_C7_notFound_frame _ _ "Bob".data (by decide)).1
  · exact (claim_C7_notFound_frame _ _ "Bob".data (by decide)).2

/-- Claim C9: `save()` does not mutate the parser's state — after a
call, `playerList` holds the same records in the same order and the
metadata spans are unchanged.  In the source the method assigns no
instance field, and the only in-place array mutation,
`Array.prototype.sort`, is applied to the spread copy
`[...this.playerList]` inside `sortAndCountPlayers`; the run model
therefore returns the pre-call state unchanged. -/
theorem claim_C9_save_no_mutation (cfg : PESConfig) (st : ParserState) :
    (saveRun cfg st).2 = st ∧
    (sortAndCountPlayersRun st.playerList).2 = st.playerList ∧
    (saveRun cfg st).1 = save st.metadata st.playerList cfg :=
  ⟨rfl, rfl, rfl⟩

/-- Claim C10: `updatePlayer` performs no validation of the new display
name: whenever the target key is present the update succeeds for every
string — including the empty and whitespace-only names `createPlayer`
rejects — storing it verbatim at the found position and leaving every
key and every other record unchanged; it throws `NotFound` exactly when
the key is absent. -/
theorem claim_C10_update_no_validation (l : List CommentaryRecord)
    (k playerName : JSString) :
    ((∃ r ∈ l, r.commentaryName = k) →
      (updatePlayerRun l k playerName).1 = .ok () ∧
      ((updatePlayerRun l k playerName).2).map
        (fun r => r.commentaryName) = l.map (fun r => r.commentaryName) ∧
      ((updatePlayerRun l k playerName).2).map (fun r => r.playerName) =
        (l.map (fun r => r.playerName)).set
          (l.findIdx (fun r => r.commentaryName = k)) playerName) ∧
    ((updatePlayerRun l k playerName).1 = .error .NotFound ↔
      ∀ r ∈ l, r.commentaryName ≠ k) := by
  constructor
  · rintro ⟨r, hr, he⟩
    have hlt : l.findIdx (fun player => player.commentaryName = k) <
        l.length :=
      List.findIdx_lt_length.mpr ⟨r, hr, by simp [he]⟩
    rw [updatePlayerRun, dif_pos hlt]
    refine ⟨rfl, ?_, ?_⟩
    · rw [List.map_set]
      have hb : l.findIdx (fun player => player.commentaryName = k) <
          (l.map (fun r => r.commentaryName)).length := by
        rw [List.length_map]
        exact hlt
      have : (l.get ⟨l.findIdx (fun player => player.commentaryName = k),
          hlt⟩).commentaryName =
          (l.map (fun r => r.commentaryName)).get
            ⟨l.findIdx (fun player => player.commentaryName = k), hb⟩ := by
        rw [List.get_eq_getElem, List.get_eq_getElem, List.getElem_map]
      rw [this, set_get_self_nat]
    · rw [List.map_set]
  · constructor
    · intro h
      intro r hr he
      have hlt : l.findIdx (fun player => player.commentaryName = k) <
          l.length :=
        List.findIdx_lt_length.mpr ⟨r, hr, by simp [he]⟩
      rw [updatePlayerRun, dif_pos hlt] at h
      exact Except.noConfusion h
    · intro habs
      rw [updatePlayerRun, dif_neg (findIdx_not_lt_of_absent l k habs)]

theorem claim_C10_update_no_validation_witness :
    (∃ r ∈ [(⟨"EN_A1_P0_R000001".data, "Ana".data⟩ : CommentaryRecord)],
      r.commentaryName = "EN_A1_P0_R000001".data) ∧
    (updatePlayerRun [⟨"EN_A1_P0_R000001".data, "Ana".data⟩]
      "EN_A1_P0_R000001".data []).1 = .ok () ∧
    ((updatePlayerRun [⟨"EN_A1_P0_R000001".data, "Ana".data⟩]
      "EN_A1_P0_R000001".data []).2).map (fun r => r.playerName) =
      [[]] := by
  refine ⟨by decide, ?_, ?_⟩
  · exact ((claim_C10_update_no_validation
      [(⟨"EN_A1_P0_R000001".data, "Ana".data⟩ : CommentaryRecord)]
      "EN_A1_P0_R000001".data []).1
      ⟨⟨"EN_A1_P0_R000001".data, "Ana".data⟩, by simp, rfl⟩).1
  · have h := ((claim_C10_update_no_validation
      [(⟨"EN_A1_P0_R000001".data, "Ana".data⟩ : CommentaryRecord)]
      "EN_A1_P0_R000001".data []).1
      ⟨⟨"EN_A1_P0_R000001".data, "Ana".data⟩, by simp, rfl⟩).2.2
    rw [h]
    decide


/-- Claim C8: for `updatePlayer` and `deletePlayer` of the dist parser
a numeric id is normalized to its 6-digit zero-padded decimal form
before the lookup key is constructed, and an id with more than 6 digits
is truncated to its last 6 (least-significant) digits rather than
rejected: the key used is the layout prefix followed by the zero-padded
decimal representation of `id mod 1000000`. -/
theorem claim_C8_id_truncation (cfg : PESConfig)
    (l : List CommentaryRecord) (id : Nat) (playerName : JSString) :
    formatTo6String id =
      List.replicate (6 - (natToString (id % 1000000)).length) '0' ++
        natToString (id % 1000000) ∧
    updatePlayerByIdRun cfg l id playerName =
      updatePlayerRun l (cfg.COMMENTARY_PREFIX ++
        (List.replicate (6 - (natToString (id % 1000000)).length) '0' ++
          natToString (id % 1000000))) playerName ∧
    deletePlayerByIdRun cfg l id =
      deletePlayerRun l (cfg.COMMENTARY_PREFIX ++
        (List.replicate (6 - (natToString (id % 1000000)).length) '0' ++
          natToString (id % 1000000))) := by
  refine ⟨formatTo6String_mod id, ?_, ?_⟩
  · rw [updatePlayerByIdRun, buildCommentaryName, formatTo6String_mod]
  · rw [deletePlayerByIdRun, buildCommentaryName, formatTo6String_mod]

theorem claim_C8_id_truncation_witness :
    formatTo6String 1234567 = "234567".data ∧
    formatTo6String 57123 = "057123".data ∧
    updatePlayerByIdRun PES2021Config [] 1234567 "X".data =
      updatePlayerRun [] "EN_A1_P0_R234567".data "X".data := by
  refine ⟨by decide, by decide, ?_⟩
  rw [(claim_C8_id_truncation PES2021Config [] 1234567 "X".data).2.1]
  decide


end PES
